import Mathlib

/-!
Verification development for the timetable generator in `src/app.py`
(class `TimeTableGenerator` and its helpers).

The Python code is shallowly embedded as pure Lean functions:
* pandas rows become Lean structures (`CourseRow`, `Room`),
* the mutable generator state (`self.timetable`, `self.faculty_schedule`,
  `self.section_schedule`, `self.room_schedule`, `self.daily_course_count`)
  becomes the explicit record `SchedState`, threaded through every function,
* the global `random` module (used via `random.choice` and `random.shuffle`)
  becomes an explicit stream of naturals (`Rng`) threaded in program order,
* the arbitrary victim of `set.pop()` in `_update_room_history` (whose choice
  depends on CPython's hash-randomised set layout, not on `random.seed`)
  becomes an explicit oracle `EvictFn`,
* Streamlit UI emissions (`st.error`, `st.warning`) become a returned message
  log, and the `ValueError` raised by `max()` on an empty sequence becomes an
  `Except.error`.
-/

set_option maxHeartbeats 1000000

namespace TTG

/-- Source constant `DAYS` (src/app.py line 12). -/
def DAYS : List String := ["Monday", "Tuesday", "Wednesday", "Thursday", "Friday"]

/-- Source constant `TIME_SLOTS` (src/app.py lines 13-16). -/
def TIME_SLOTS : List String :=
  ["08:45-09:45", "09:45-10:45", "10:45-11:45", "11:00-12:00", "12:00-13:00",
   "14:15-15:15", "15:15-16:15", "16:30-17:30"]

/-- Source constant `MORNING_SLOTS = TIME_SLOTS[:4]` (line 17). -/
def MORNING_SLOTS : List String := TIME_SLOTS.take 4

/-- Source constant `AFTERNOON_SLOTS = TIME_SLOTS[4:]` (line 18). -/
def AFTERNOON_SLOTS : List String := TIME_SLOTS.drop 4

/-- Source constant `COLORS` (lines 19-23). -/
def COLORS : List String :=
  ["#FF9999", "#99FF99", "#9999FF", "#FFFF99", "#FF99FF",
   "#99FFFF", "#FFB366", "#99CC99", "#9999CC", "#FFCC99",
   "#FF99CC", "#99FFCC", "#CC99FF", "#FFFF66", "#FF66FF"]

/-- Source dataclass `Course` (lines 25-32).  The `color` field is always set
by `_create_course_assignments` before a `Course` value is used, so it is
modelled as a plain `String`. -/
structure Course where
  code : String
  name : String
  credits : Nat
  semester : Nat
  branch : String
  color : String
deriving DecidableEq

/-- Source dataclass `CourseAssignment` (lines 34-37). -/
structure CourseAssignment where
  course : Course
  faculty : String
deriving DecidableEq

/-- Source dataclass `Section` (lines 39-45). -/
structure Section where
  name : String
  semester : Nat
  branch : String
  student_count : Nat
  course_assignments : List CourseAssignment
deriving DecidableEq

/-- Source dataclass `Room` (lines 47-50). -/
structure Room where
  number : String
  capacity : Nat
deriving DecidableEq

/-- Source dataclass `TimeTableSlot` (lines 52-59).  The Python field
`section` is a Lean keyword, so it is called `sec` here. -/
structure TimeTableSlot where
  day : String
  time : String
  course : Course
  room : Room
  sec : Section
  faculty : String
deriving DecidableEq

/-- One row of the uploaded subjects CSV (`courses_df`): columns
`Semester`, `Course Code`, `Course Name`, `Faculty Members` (the raw
comma-separated string), `Credits`, `Branch`. -/
structure CourseRow where
  semester : Nat
  courseCode : String
  courseName : String
  facultyMembers : String
  credits : Nat
  branch : String
deriving DecidableEq

/-- The inputs of `TimeTableGenerator.__init__` (line 62): the course rows,
the room rows, the semester-type string and the per-branch-per-year student
counts.  The faculty dataframe is never read by the generator logic, so it is
omitted. -/
structure GenInput where
  courses : List CourseRow
  rooms : List Room
  semesterType : String
  studentCounts : String → Nat → Nat

/-- The global `random` module is modelled as a stream of naturals consumed
in program order; `random.choice` and `random.shuffle` draw indices from it. -/
abbrev Rng := List Nat

/-- Oracle for the arbitrary element removed by `set.pop()` in
`_update_room_history` (line 264): given the history as a list in insertion
order, it yields the index of the victim.  In CPython this choice depends on
the hash-randomised set layout, not on `random.seed`. -/
abbrev EvictFn := List String → Nat

/-- Draw the next value below `bound` from the random stream. -/
def rngNext (r : Rng) (bound : Nat) : Nat × Rng :=
  match r with
  | [] => (0, [])
  | x :: xs => (if bound = 0 then 0 else x % bound, xs)

/-- Remove and return the element at index `i`, keeping the rest in order. -/
def pickAt {α : Type} : List α → Nat → Option (α × List α)
  | [], _ => none
  | x :: xs, 0 => some (x, xs)
  | x :: xs, i + 1 => (pickAt xs i).map (fun p => (p.1, x :: p.2))

/-- Worker for `shuffle`: repeatedly extract a random element. -/
def shuffleGo {α : Type} : Nat → List α → Rng → List α → List α × Rng
  | 0, l, r, acc => (acc.reverse ++ l, r)
  | fuel + 1, l, r, acc =>
    match l with
    | [] => (acc.reverse, r)
    | x :: xs =>
      let p := rngNext r (x :: xs).length
      match pickAt (x :: xs) p.1 with
      | some q => shuffleGo fuel q.2 p.2 (q.1 :: acc)
      | none => (acc.reverse ++ x :: xs, p.2)

/-- Model of `random.shuffle` (line 176): a permutation of the input drawn
from the random stream by sampling without replacement. -/
def shuffle {α : Type} (l : List α) (r : Rng) : List α × Rng :=
  shuffleGo l.length l r []

/-- Model of `random.choice` (line 95): pick an element at a random index. -/
def rngChoice (l : List String) (r : Rng) : String × Rng :=
  let p := rngNext r l.length
  (l.getD p.1 "", p.2)

/-- Python `str.lower`, computed on the character list. -/
def pyLower (s : String) : String := ⟨s.data.map Char.toLower⟩

/-- Python `str.upper`, computed on the character list. -/
def pyUpper (s : String) : String := ⟨s.data.map Char.toUpper⟩

/-- Python `str.strip`: remove leading and trailing whitespace. -/
def pyStrip (s : String) : String :=
  ⟨((s.data.dropWhile Char.isWhitespace).reverse.dropWhile
      Char.isWhitespace).reverse⟩

/-- Worker for `pySplit`: split a character list at every separator. -/
def splitChars (sep : Char) : List Char → List (List Char)
  | [] => [[]]
  | c :: cs =>
    if c = sep then [] :: splitChars sep cs
    else
      match splitChars sep cs with
      | [] => [[c]]
      | l :: ls => (c :: l) :: ls

/-- Python `str.split(sep)` for a one-character separator. -/
def pySplit (sep : Char) (s : String) : List String :=
  (splitChars sep s.data).map (fun l => ⟨l⟩)

/-- `[f.strip() for f in str(row['Faculty Members']).split(',')]` (line 94). -/
def splitFaculty (s : String) : List String :=
  (pySplit ',' s).map pyStrip

/-- Association-list lookup, modelling a Python dict with unique keys. -/
def lookupA : List (String × String) → String → Option String
  | [], _ => none
  | (k, v) :: rest, c => if k = c then some v else lookupA rest c

/-- The `if course.code not in faculty_assignments` block (lines 93-96):
reuse the recorded faculty for the code, or pick one at random from the
row's comma-separated faculty list and record it. -/
def chooseFac (fm : List (String × String)) (code facs : String) (rng : Rng) :
    String × List (String × String) × Rng :=
  match lookupA fm code with
  | some f => (f, fm, rng)
  | none =>
    let p := rngChoice (splitFaculty facs) rng
    (p.1, (code, p.1) :: fm, p.2)

/-- The `Course(...)` literal of lines 84-91; `n` is `len(course_assignments)`
at construction time, used for the colour index. -/
def rowCourse (branch : String) (semester : Nat) (row : CourseRow) (n : Nat) :
    Course :=
  { code := row.courseCode, name := row.courseName, credits := row.credits,
    semester := semester, branch := branch,
    color := COLORS.getD (n % COLORS.length) "" }

/-- Worker for `_create_course_assignments` (lines 78-104).  `fm` is the
local `faculty_assignments` dict, `n` is `len(course_assignments)` so far
(used for the colour index). -/
def ccaGo (branch : String) (semester : Nat) :
    List CourseRow → List (String × String) → Nat → Rng → List CourseAssignment × Rng
  | [], _, _, rng => ([], rng)
  | row :: rest, fm, n, rng =>
    if row.semester = semester ∧ pyLower row.branch = branch then
      let course := rowCourse branch semester row n
      let pick := chooseFac fm course.code row.facultyMembers rng
      let copies := List.replicate course.credits (⟨course, pick.1⟩ : CourseAssignment)
      let r := ccaGo branch semester rest pick.2.1 (n + course.credits) pick.2.2
      (copies ++ r.1, r.2)
    else
      ccaGo branch semester rest fm n rng

/-- Embedding of `TimeTableGenerator._create_course_assignments`
(lines 78-104). -/
def createCourseAssignments (courses : List CourseRow) (branch : String)
    (semester : Nat) (rng : Rng) : List CourseAssignment × Rng :=
  ccaGo branch semester courses [] 0 rng

/-- Ceiling division on naturals; `math.ceil(a / b)` for the magnitudes the
generator handles. -/
def ceilDiv (a b : Nat) : Nat := (a + b - 1) / b

/-- `max(room.capacity for room in self.rooms)` on a nonempty room list. -/
def maxCapOf (r0 : Room) (rest : List Room) : Nat :=
  rest.foldl (fun m r => max m r.capacity) r0.capacity

/-- `min(room.capacity for room in self.rooms)` on a nonempty room list. -/
def minCapOf (r0 : Room) (rest : List Room) : Nat :=
  rest.foldl (fun m r => min m r.capacity) r0.capacity

/-- Section names: `f"S{semester}{branch.upper()}{chr(65 + section_num)}"`
(line 133). -/
def sectionName (semester : Nat) (branch : String) (i : Nat) : String :=
  "S" ++ toString semester ++ pyUpper branch ++ (Char.ofNat (65 + i)).toString

/-- The `for section_num in range(num_sections)` loop of `_initialize_data`
(lines 132-146): builds `k` sections starting at split index `i`, calling
`_create_course_assignments` once per section. -/
def mkSections (courses : List CourseRow) (branch : String) (semester : Nat)
    (per : Nat) : Nat → Nat → Rng → List Section × Rng
  | 0, _, rng => ([], rng)
  | k + 1, i, rng =>
    let cas := createCourseAssignments courses branch semester rng
    let rest := mkSections courses branch semester per k (i + 1) cas.2
    ({ name := sectionName semester branch i, semester := semester,
       branch := branch, student_count := per,
       course_assignments := cas.1 } :: rest.1, rest.2)

/-- The body of `_initialize_data`'s per-(branch, semester) loop
(lines 117-146).  When the room list is empty, `max(...)` raises
`ValueError`, modelled as `Except.error`. -/
def buildSectionsFor (input : GenInput) (rng : Rng) (branch : String)
    (semester : Nat) : Except String (List Section × Rng) :=
  let year := (semester + 1) / 2
  let studentCount := input.studentCounts branch year
  match input.rooms with
  | [] => .error "ValueError: max() arg is an empty sequence"
  | r0 :: rest =>
    let needMultiple := maxCapOf r0 rest < studentCount
    let nums :=
      if needMultiple then
        let ns := ceilDiv studentCount (minCapOf r0 rest)
        (ns, ceilDiv studentCount ns)
      else (1, studentCount)
    .ok (mkSections input.courses branch semester nums.2 nums.1 0 rng)

/-- `target_branches = ['cse', 'ece', 'aids']` (line 113). -/
def targetBranches : List String := ["cse", "ece", "aids"]

/-- `[2, 4, 6, 8] if self.semester_type == 'even' else [1, 3, 5, 7]`
(line 112); `semester_type` was lower-cased in `__init__`. -/
def targetSemesters (semType : String) : List Nat :=
  if pyLower semType = "even" then [2, 4, 6, 8] else [1, 3, 5, 7]

/-- Concatenation-map helper (list monad bind). -/
def catMap {α β : Type} (f : α → List β) : List α → List β
  | [] => []
  | x :: xs => f x ++ catMap f xs

/-- The (branch, semester) pairs visited by `_initialize_data`, in loop
order. -/
def pairsFor (semType : String) : List (String × Nat) :=
  catMap (fun b => (targetSemesters semType).map (fun s => (b, s))) targetBranches

/-- Folds `buildSectionsFor` over the (branch, semester) pairs, threading the
random stream and propagating the first error. -/
def initGo (input : GenInput) : List (String × Nat) → Rng →
    Except String (List Section × Rng)
  | [], rng => .ok ([], rng)
  | (b, s) :: rest, rng =>
    match buildSectionsFor input rng b s with
    | .error e => .error e
    | .ok r =>
      match initGo input rest r.2 with
      | .error e => .error e
      | .ok r2 => .ok (r.1 ++ r2.1, r2.2)

/-- The data `_initialize_data` leaves on the generator: the room list and
the sections flattened in (branch, semester, split) order — the same order
`generate_timetable` later iterates them in. -/
structure InitData where
  rooms : List Room
  sections : List Section
deriving DecidableEq

/-- Embedding of `TimeTableGenerator._initialize_data` (lines 106-146). -/
def initializeData (input : GenInput) (rng : Rng) :
    Except String (InitData × Rng) :=
  match initGo input (pairsFor input.semesterType) rng with
  | .error e => .error e
  | .ok r => .ok ({ rooms := input.rooms, sections := r.1 }, r.2)

/-- The mutable scheduling state of the generator: `self.timetable` (a dict
from section name to slot list, kept as an association list in insertion
order), the three busy-slot maps and the per-section per-day counter.  The
Python dicts-of-sets keyed by name and day become total functions defaulting
to the empty set / zero, which is what the `defaultdict` and the explicit
empty-set initialisation produce for every key the generator touches. -/
structure SchedState where
  timetable : List (String × List TimeTableSlot)
  facultySchedule : String → String → List String
  sectionSchedule : String → String → List String
  roomSchedule : String → String → List String
  dailyCount : String → String → Nat

/-- The state at the start of a generation run: everything empty. -/
def SchedState.init : SchedState :=
  ⟨[], fun _ _ => [], fun _ _ => [], fun _ _ => [], fun _ _ => 0⟩

/-- Dict lookup in `self.timetable`, defaulting to the empty list. -/
def lookupTT : List (String × List TimeTableSlot) → String → List TimeTableSlot
  | [], _ => []
  | e :: rest, n => if e.1 = n then e.2 else lookupTT rest n

/-- Dict assignment `self.timetable[n] = v`: replace the first binding of `n`
or append a new one. -/
def setTT : List (String × List TimeTableSlot) → String → List TimeTableSlot →
    List (String × List TimeTableSlot)
  | [], n, v => [(n, v)]
  | e :: rest, n, v => if e.1 = n then (e.1, v) :: rest else e :: setTT rest n v

/-- `self.timetable[section.name].append(slot)` (line 253). -/
def appendSlotTT (tt : List (String × List TimeTableSlot)) (n : String)
    (s : TimeTableSlot) : List (String × List TimeTableSlot) :=
  setTT tt n (lookupTT tt n ++ [s])

/-- Set insertion for the busy-slot sets (`set.add`). -/
def setAdd (l : List String) (x : String) : List String :=
  if x ∈ l then l else l ++ [x]

/-- Update a doubly-keyed map at one (key, day) point. -/
def upd2 {α : Type} (f : String → String → α) (k1 k2 : String) (v : α) :
    String → String → α :=
  fun a b => if a = k1 ∧ b = k2 then v else f a b

/-- Morning count inside `_is_slot_available` (line 161):
`sum(1 for t in self.section_schedule[section][day] if t in MORNING_SLOTS)`. -/
def listMorn (st : SchedState) (n d : String) : Nat :=
  (st.sectionSchedule n d).countP (fun t => decide (t ∈ MORNING_SLOTS))

/-- Afternoon count inside `_is_slot_available` (line 162). -/
def listAft (st : SchedState) (n d : String) : Nat :=
  (st.sectionSchedule n d).countP (fun t => decide (t ∈ AFTERNOON_SLOTS))

/-- Embedding of `TimeTableGenerator._is_slot_available` (lines 148-169). -/
def isSlotAvailable (st : SchedState) (faculty secName roomNum day time : String) :
    Bool :=
  if time ∈ st.facultySchedule faculty day then false
  else if time ∈ st.sectionSchedule secName day then false
  else if time ∈ st.roomSchedule roomNum day then false
  else if 4 ≤ st.dailyCount secName day then false
  else if time ∈ MORNING_SLOTS ∧ 3 ≤ listMorn st secName day then false
  else if time ∉ MORNING_SLOTS ∧ 2 ≤ listAft st secName day then false
  else true

/-- The `TimeTableSlot` built by `_schedule_slot` (lines 244-251). -/
def mkSlot (sec : Section) (a : CourseAssignment) (day time : String)
    (room : Room) : TimeTableSlot :=
  ⟨day, time, a.course, room, sec, a.faculty⟩

/-- Embedding of `TimeTableGenerator._schedule_slot` (lines 241-257):
append the slot and mark faculty, section, room and the day counter. -/
def scheduleSlot (st : SchedState) (sec : Section) (a : CourseAssignment)
    (day time : String) (room : Room) : SchedState :=
  { timetable := appendSlotTT st.timetable sec.name (mkSlot sec a day time room)
    facultySchedule :=
      upd2 st.facultySchedule a.faculty day
        (setAdd (st.facultySchedule a.faculty day) time)
    sectionSchedule :=
      upd2 st.sectionSchedule sec.name day
        (setAdd (st.sectionSchedule sec.name day) time)
    roomSchedule :=
      upd2 st.roomSchedule room.number day
        (setAdd (st.roomSchedule room.number day) time)
    dailyCount :=
      upd2 st.dailyCount sec.name day (st.dailyCount sec.name day + 1) }

/-- `self.timetable[section.name] = []` (line 423). -/
def resetSection (st : SchedState) (n : String) : SchedState :=
  { st with timetable := setTT st.timetable n [] }

/-- Python's `min(list, key=...)`: keep the first element whose key is
strictly smaller than the best so far. -/
def minByLt (lt : Room → Room → Bool) : Room → List Room → Room
  | best, [] => best
  | best, r :: rest => minByLt lt (if lt r best then r else best) rest

/-- The per-section `course_room_history` dict (course code → set of room
numbers, kept as a list in insertion order). -/
abbrev HistFn := String → List String

/-- Embedding of `TimeTableGenerator._select_best_room` (lines 219-239) on a
nonempty `suitable_rooms` list `r0 :: rs`. -/
def selectBestRoom (st : SchedState) (r0 : Room) (rs : List Room)
    (courseCode : String) (hist : HistFn) (secName : String) : Room :=
  let unused := (r0 :: rs).filter (fun r => decide (r.number ∉ hist courseCode))
  match unused with
  | u0 :: us => minByLt (fun a b => decide (a.capacity < b.capacity)) u0 us
  | [] =>
    let cnt := fun r : Room =>
      (lookupTT st.timetable secName).countP
        (fun s => decide (s.room.number = r.number ∧ s.course.code = courseCode))
    minByLt
      (fun a b => decide (cnt a < cnt b ∨ (cnt a = cnt b ∧ a.capacity < b.capacity)))
      r0 rs

/-- Embedding of `TimeTableGenerator._update_room_history` (lines 259-264):
add the room then, if the set exceeds 3 entries, `pop()` an arbitrary one —
the victim's index is supplied by the eviction oracle. -/
def updateRoomHistory (hist : HistFn) (courseCode roomNum : String)
    (ev : EvictFn) : HistFn :=
  let s1 := setAdd (hist courseCode) roomNum
  let s2 := if 3 < s1.length then s1.eraseIdx (ev s1 % s1.length) else s1
  fun c => if c = courseCode then s2 else hist c

/-- The slot-trial loop of `_try_schedule_course` (lines 198-217) over a
given list of candidate times. -/
def trySlots (rooms : List Room) (sec : Section) (a : CourseAssignment)
    (day : String) (ev : EvictFn) (st : SchedState) (hist : HistFn) :
    List String → Option (SchedState × HistFn)
  | [] => none
  | t :: ts =>
    match rooms.filter (fun r =>
        decide (sec.student_count ≤ r.capacity) &&
        isSlotAvailable st a.faculty sec.name r.number day t) with
    | [] => trySlots rooms sec a day ev st hist ts
    | r0 :: rs =>
      let room := selectBestRoom st r0 rs a.course.code hist sec.name
      some (scheduleSlot st sec a day t room,
            updateRoomHistory hist a.course.code room.number ev)

/-- Embedding of `TimeTableGenerator._try_schedule_course` (lines 191-217). -/
def tryScheduleCourse (rooms : List Room) (sec : Section)
    (a : CourseAssignment) (day : String) (ev : EvictFn) (st : SchedState)
    (hist : HistFn) : Option (SchedState × HistFn) :=
  let preferred :=
    if st.dailyCount sec.name day < 2 then MORNING_SLOTS ++ AFTERNOON_SLOTS
    else AFTERNOON_SLOTS ++ MORNING_SLOTS
  trySlots rooms sec a day ev st hist preferred

/-- The `for day in days_by_load` loop of `_attempt_schedule_courses`
(lines 185-189): first day on which a slot commits wins. -/
def tryDays (rooms : List Room) (sec : Section) (a : CourseAssignment)
    (ev : EvictFn) (st : SchedState) (hist : HistFn) :
    List String → Option (SchedState × HistFn)
  | [] => none
  | d :: ds =>
    match tryScheduleCourse rooms sec a d ev st hist with
    | some r => some r
    | none => tryDays rooms sec a ev st hist ds

/-- Stable insertion keeping earlier elements first among equal keys,
matching Python's stable `sorted`. -/
def insertSorted (key : String → Nat) (x : String) : List String → List String
  | [] => [x]
  | y :: ys => if key y ≤ key x then y :: insertSorted key x ys else x :: y :: ys

/-- `sorted(DAYS, key=lambda d: self.daily_course_count[section.name][d])`
(lines 182-183), a stable ascending sort. -/
def sortedDays (st : SchedState) (secName : String) : List String :=
  DAYS.foldl (fun acc d => insertSorted (fun x => st.dailyCount secName x) d acc) []

/-- Point update of the `remaining_hours` dict. -/
def updC (rem : Course → Int) (c : Course) (v : Int) : Course → Int :=
  fun x => if x = c then v else rem x

/-- The assignment loop of `_attempt_schedule_courses` (lines 178-189):
skip assignments whose course has no remaining hours, otherwise try the days
by ascending load and decrement on a committed placement. -/
def attemptGo (rooms : List Room) (sec : Section) (ev : EvictFn) :
    List CourseAssignment → SchedState → (Course → Int) → HistFn →
    SchedState × (Course → Int) × HistFn
  | [], st, rem, hist => (st, rem, hist)
  | a :: rest, st, rem, hist =>
    if rem a.course ≤ 0 then attemptGo rooms sec ev rest st rem hist
    else
      match tryDays rooms sec a ev st hist (sortedDays st sec.name) with
      | some r =>
        attemptGo rooms sec ev rest r.1 (updC rem a.course (rem a.course - 1)) r.2
      | none => attemptGo rooms sec ev rest st rem hist

/-- Embedding of `TimeTableGenerator._attempt_schedule_courses`
(lines 172-189): shuffle the assignment list, then run the loop. -/
def attemptScheduleCourses (rooms : List Room) (sec : Section)
    (st : SchedState) (rem : Course → Int) (hist : HistFn) (rng : Rng)
    (ev : EvictFn) : SchedState × (Course → Int) × HistFn × Rng :=
  let sh := shuffle sec.course_assignments rng
  let r := attemptGo rooms sec ev sh.1 st rem hist
  (r.1, r.2.1, r.2.2, sh.2)

/-- `any(hours > 0 for hours in remaining_hours.values())` (line 437): the
dict's keys are exactly the courses of the assignment list. -/
def anyRem (l : List CourseAssignment) (rem : Course → Int) : Bool :=
  l.any (fun a => decide (0 < rem a.course))

/-- The bounded `while` loop of `_generate_section_timetable`
(lines 434-439), with the 100-attempt cap as fuel. -/
def attemptLoop (rooms : List Room) (sec : Section) (ev : EvictFn) :
    Nat → SchedState → (Course → Int) → HistFn → Rng →
    SchedState × (Course → Int) × Rng
  | 0, st, rem, _, rng => (st, rem, rng)
  | f + 1, st, rem, hist, rng =>
    if anyRem sec.course_assignments rem then
      let r := attemptScheduleCourses rooms sec st rem hist rng ev
      attemptLoop rooms sec ev f r.1 r.2.1 r.2.2.1 r.2.2.2
    else (st, rem, rng)

/-- Initial `remaining_hours`: one per assignment, summed per course
(lines 424-428). -/
def initRem (l : List CourseAssignment) : Course → Int :=
  l.foldl (fun m a => updC m a.course (m a.course + 1)) (fun _ => 0)

/-- The distinct courses of the assignment list in first-occurrence order:
the key order of the `remaining_hours` dict. -/
def firstCourses : List Course → List CourseAssignment → List Course
  | _, [] => []
  | seen, a :: rest =>
    if a.course ∈ seen then firstCourses seen rest
    else a.course :: firstCourses (a.course :: seen) rest

/-- The unmet (course code, hours) pairs reported on failure
(lines 443-444). -/
def deficitsOf (l : List CourseAssignment) (rem : Course → Int) :
    List (String × Int) :=
  (firstCourses [] l).filterMap
    (fun c => if 0 < rem c then some (c.code, rem c) else none)

/-- Per-section outcome: the section, the success flag returned by
`_generate_section_timetable`, and the reported deficits. -/
structure SectionResult where
  sec : Section
  success : Bool
  deficits : List (String × Int)
deriving DecidableEq

/-- Output of `_generate_section_timetable`: new state, new random stream,
the result record, and the `st.error` messages it emitted. -/
structure SecOut where
  state : SchedState
  rng : Rng
  result : SectionResult
  msgs : List String

/-- Embedding of `TimeTableGenerator._generate_section_timetable`
(lines 418-448). -/
def generateSectionTimetable (rooms : List Room) (sec : Section)
    (st : SchedState) (rng : Rng) (ev : EvictFn) : SecOut :=
  let st1 := resetSection st sec.name
  if sec.course_assignments = [] then
    ⟨st1, rng, ⟨sec, false, []⟩, ["No courses found for section " ++ sec.name]⟩
  else
    let r := attemptLoop rooms sec ev 100 st1 (initRem sec.course_assignments)
      (fun _ => []) rng
    if anyRem sec.course_assignments r.2.1 then
      let defs := deficitsOf sec.course_assignments r.2.1
      ⟨r.1, r.2.2, ⟨sec, false, defs⟩,
        ["Could not schedule all courses for section " ++ sec.name ++
           " after 100 attempts",
         "Unscheduled courses: " ++ String.intercalate ", "
           (defs.map (fun p => p.1 ++ ": " ++ toString p.2 ++ " hours"))]⟩
    else ⟨r.1, r.2.2, ⟨sec, true, []⟩, []⟩

/-- The `for section in all_sections` loop of `generate_timetable`
(lines 404-408): returns final state, final stream, the per-section results,
the emitted messages, and the overall `generation_success` flag. -/
def foldSections (rooms : List Room) (ev : EvictFn) :
    List Section → SchedState → Rng →
    SchedState × Rng × List SectionResult × List String × Bool
  | [], st, rng => (st, rng, [], [], true)
  | sec :: rest, st, rng =>
    let o := generateSectionTimetable rooms sec st rng ev
    let failMsgs :=
      if o.result.success then []
      else ["Failed to generate complete timetable for section " ++ sec.name]
    let r := foldSections rooms ev rest o.state o.rng
    (r.1, r.2.1, o.result :: r.2.2.1, o.msgs ++ failMsgs ++ r.2.2.2.1,
     o.result.success && r.2.2.2.2)

/-- First-occurrence deduplication for strings, matching Python dict key
order. -/
def dedupStr : List String → List String → List String
  | _, [] => []
  | seen, x :: xs =>
    if x ∈ seen then dedupStr seen xs else x :: dedupStr (x :: seen) xs

/-- Count occurrences of a string. -/
def countStr (l : List String) (x : String) : Nat :=
  l.countP (fun y => decide (y = x))

/-- Maximum of a list of naturals starting from a head value. -/
def maxFrom (x : Nat) (l : List Nat) : Nat := l.foldl max x

/-- Minimum of a list of naturals starting from a head value. -/
def minFrom (x : Nat) (l : List Nat) : Nat := l.foldl min x

/-- The per-section body of `_validate_timetable` (the second definition,
lines 450-486, which overrides the first). -/
def validateSection (name : String) (slots : List TimeTableSlot) : List String :=
  if slots = [] then ["No slots scheduled for section " ++ name]
  else
    let codes := dedupStr [] (slots.map (fun s => s.course.code))
    let roomIssues := codes.filterMap (fun code =>
      let courseSlots := slots.filter (fun s => decide (s.course.code = code))
      let rooms := dedupStr [] (courseSlots.map (fun s => s.room.number))
      if rooms.length = 1 ∧ 2 < courseSlots.length then
        some ("Warning: Course " ++ code ++ " in section " ++ name ++
          " uses same room (" ++ rooms.headD "" ++ ") for all " ++
          toString courseSlots.length ++ " sessions")
      else none)
    let days := dedupStr [] (slots.map (fun s => s.day))
    let counts := days.map (fun d => countStr (slots.map (fun s => s.day)) d)
    let distIssues :=
      match counts with
      | [] => []
      | c0 :: cs =>
        if minFrom c0 cs + 2 < maxFrom c0 cs then
          ["Warning: Uneven distribution of classes across days in section " ++
            name ++ " (" ++ String.intercalate ", "
              (days.map (fun d =>
                d ++ ": " ++ toString (countStr (slots.map (fun s => s.day)) d)))
            ++ ")"]
        else []
    roomIssues ++ distIssues

/-- Embedding of `TimeTableGenerator._validate_timetable` (lines 450-486). -/
def validateTimetable (tt : List (String × List TimeTableSlot)) : List String :=
  catMap (fun e => validateSection e.1 e.2) tt

/-- All slots of a timetable dict, in dict order. -/
def allOf (tt : List (String × List TimeTableSlot)) : List TimeTableSlot :=
  catMap (fun e => e.2) tt

/-- All slots of all sections, in timetable-dict order. -/
def allSlots (st : SchedState) : List TimeTableSlot :=
  allOf st.timetable

/-- `total_slots_scheduled` of `_generate_statistics` (lines 306-390).  The
statistics object is modelled by this headline field alone; the remaining
aggregations are presentation-only and touched by no claim. -/
def totalSlots (st : SchedState) : Nat := (allSlots st).length

/-- Result of `generate_timetable` (lines 391-416): the final state, the
per-section results, the emitted `st.error` / `st.warning` messages, and the
returned statistics (`none` models Python's `return None`). -/
structure RunResult where
  state : SchedState
  results : List SectionResult
  messages : List String
  stats : Option Nat

/-- Embedding of `TimeTableGenerator.generate_timetable` (lines 391-416). -/
def generateTimetable (data : InitData) (rng : Rng) (ev : EvictFn) : RunResult :=
  if data.sections = [] then
    ⟨SchedState.init, [], ["No sections found to generate timetable. Please check your input data."],
     none⟩
  else
    let r := foldSections data.rooms ev data.sections SchedState.init rng
    if r.2.2.2.2 then
      ⟨r.1, r.2.2.1, r.2.2.2.1 ++ validateTimetable r.1.timetable,
       some (totalSlots r.1)⟩
    else
      ⟨r.1, r.2.2.1, r.2.2.2.1, none⟩

/-- The whole pipeline as the caller sees it: `TimeTableGenerator(...)`
(which runs `_initialize_data` and can raise) followed by
`generate_timetable()`. -/
def run (input : GenInput) (rng : Rng) (ev : EvictFn) :
    Except String RunResult :=
  match initializeData input rng with
  | .error e => .error e
  | .ok r => .ok (generateTimetable r.1 r.2 ev)

/-- Number of scheduled slots of a given faculty at a given (day, time),
over all sections. -/
def facCnt (st : SchedState) (f d t : String) : Nat :=
  (allSlots st).countP (fun s => decide (s.faculty = f ∧ s.day = d ∧ s.time = t))

/-- Number of scheduled slots of a given section at a given (day, time). -/
def secCnt (st : SchedState) (n d t : String) : Nat :=
  (allSlots st).countP (fun s => decide (s.sec.name = n ∧ s.day = d ∧ s.time = t))

/-- Number of scheduled slots in a given room at a given (day, time). -/
def roomCnt (st : SchedState) (r d t : String) : Nat :=
  (allSlots st).countP (fun s => decide (s.room.number = r ∧ s.day = d ∧ s.time = t))

/-- Number of sessions of a section on a day. -/
def secDayCnt (st : SchedState) (n d : String) : Nat :=
  (allSlots st).countP (fun s => decide (s.sec.name = n ∧ s.day = d))

/-- Number of morning sessions of a section on a day. -/
def mornCnt (st : SchedState) (n d : String) : Nat :=
  (allSlots st).countP
    (fun s => decide (s.sec.name = n ∧ s.day = d ∧ s.time ∈ MORNING_SLOTS))

/-- Number of afternoon sessions of a section on a day. -/
def aftCnt (st : SchedState) (n d : String) : Nat :=
  (allSlots st).countP
    (fun s => decide (s.sec.name = n ∧ s.day = d ∧ s.time ∈ AFTERNOON_SLOTS))

/-- No faculty member, section or room occurs in more than one scheduled
slot at any (day, time) pair. -/
def NoDoubleBooking (st : SchedState) : Prop :=
  ∀ d t : String,
    (∀ f, facCnt st f d t ≤ 1) ∧ (∀ n, secCnt st n d t ≤ 1) ∧
    (∀ r, roomCnt st r d t ≤ 1)

/-- Per section and day: at most 4 sessions, at most 3 morning sessions,
at most 2 afternoon sessions. -/
def SectionDailyCaps (st : SchedState) : Prop :=
  ∀ n d : String, secDayCnt st n d ≤ 4 ∧ mornCnt st n d ≤ 3 ∧ aftCnt st n d ≤ 2

/-- Every scheduled slot's room holds its section. -/
def CapacityOk (st : SchedState) : Prop :=
  ∀ s ∈ allSlots st, s.sec.student_count ≤ s.room.capacity

/-- The busy-slot sets dominate the slot lists: a (day, time) absent from a
busy set carries no slot of that resource. -/
def BusyLink (st : SchedState) : Prop :=
  ∀ d t : String,
    (∀ f, t ∉ st.facultySchedule f d → facCnt st f d t = 0) ∧
    (∀ n, t ∉ st.sectionSchedule n d → secCnt st n d t = 0) ∧
    (∀ r, t ∉ st.roomSchedule r d → roomCnt st r d t = 0)

/-- The day counter and the morning/afternoon contents of the section
busy-set dominate the per-section slot counts and respect the caps. -/
def CapsLink (st : SchedState) : Prop :=
  ∀ n d : String,
    st.dailyCount n d ≤ 4 ∧ secDayCnt st n d ≤ st.dailyCount n d ∧
    mornCnt st n d ≤ listMorn st n d ∧ listMorn st n d ≤ 3 ∧
    aftCnt st n d ≤ listAft st n d ∧ listAft st n d ≤ 2

/-- The full scheduling invariant maintained by every guarded placement. -/
def Inv (st : SchedState) : Prop :=
  BusyLink st ∧ NoDoubleBooking st ∧ CapsLink st ∧ CapacityOk st

/-- Abstraction of the scheduler's state mutations: starting from `s0`, the
state evolves only by guarded commits (`_schedule_slot` applied to a slot
that passed the `_is_slot_available` check and the capacity filter of
`_try_schedule_course`) and by the per-section reset
`self.timetable[section.name] = []`.  Every state the generator passes
through is reachable from `SchedState.init` in this sense. -/
inductive Reaches : SchedState → SchedState → Prop
  | refl (s : SchedState) : Reaches s s
  | commit {s0 s : SchedState} (sec : Section) (a : CourseAssignment)
      (day time : String) (room : Room) :
      Reaches s0 s →
      isSlotAvailable s a.faculty sec.name room.number day time = true →
      sec.student_count ≤ room.capacity →
      Reaches s0 (scheduleSlot s sec a day time room)
  | reset {s0 s : SchedState} (n : String) :
      Reaches s0 s → Reaches s0 (resetSection s n)

/-- Slots recorded for a given course under a given timetable key. -/
def cntCourse (st : SchedState) (n : String) (c : Course) : Nat :=
  (lookupTT st.timetable n).countP (fun s => decide (s.course = c))

/-- Multiplicity of a course in an assignment list. -/
def multOf (c : Course) (l : List CourseAssignment) : Nat :=
  l.countP (fun a => decide (a.course = c))

/-- The bookkeeping invariant of `_generate_section_timetable`: each
course's remaining hours stay non-negative, and remaining hours plus placed
slots equal the course's multiplicity in the assignment list. -/
def HourInv (sec : Section) (st : SchedState) (rem : Course → Int) : Prop :=
  ∀ c : Course,
    0 ≤ rem c ∧
    rem c + (cntCourse st sec.name c : Int) = (multOf c sec.course_assignments : Int)

/-- Stated from the claim: "1 section when the student count fits in the
largest room's capacity, and otherwise ceil(count / smallest-room-capacity)
sections". -/
def claimNumSections (cnt maxCap minCap : Nat) : Nat :=
  if cnt ≤ maxCap then 1 else ceilDiv cnt minCap

/-- Stated from the claim: "each holding ceil(count / number-of-sections)
students". -/
def claimStudentsPerSection (cnt ns : Nat) : Nat := ceilDiv cnt ns

/-- Stated from the claim: section names are `S<semester><BRANCH><letter>`
with letters A, B, ... indexing the split. -/
def claimSectionName (semester : Nat) (branch : String) (i : Nat) : String :=
  "S" ++ toString semester ++ pyUpper branch ++ (Char.ofNat (65 + i)).toString

/-- Concrete input: one 3-credit course for cse semester 2, one adequate
room; the cse semester-2 section schedules completely. -/
def iSucc : GenInput :=
  { courses := [{ semester := 2, courseCode := "CS101", courseName := "Prog",
                  facultyMembers := "Alice, Bob", credits := 3, branch := "CSE" }],
    rooms := [⟨"R1", 40⟩],
    semesterType := "even",
    studentCounts := fun b y => if b = "cse" ∧ y = 1 then 30 else 0 }

/-- Concrete input for the reproducibility counterexample: one 5-credit
course and four rooms, so that the fifth placement consults the room
history right after its size cap forced an eviction. -/
def i9 : GenInput :=
  { courses := [{ semester := 2, courseCode := "CS200", courseName := "Algo",
                  facultyMembers := "Carol", credits := 5, branch := "CSE" }],
    rooms := [⟨"R1", 10⟩, ⟨"R2", 20⟩, ⟨"R3", 30⟩, ⟨"R4", 40⟩],
    semesterType := "even",
    studentCounts := fun b y => if b = "cse" ∧ y = 1 then 5 else 0 }

/-- Concrete input whose cse cohort (100 students) exceeds the largest room
(60) and splits into 3 sections of 34. -/
def iSplit : GenInput :=
  { courses := [],
    rooms := [⟨"A", 40⟩, ⟨"B", 60⟩],
    semesterType := "even",
    studentCounts := fun b y => if b = "cse" ∧ y = 1 then 100 else 0 }

/-- Concrete input with an empty room list. -/
def iNoRooms : GenInput :=
  { courses := [], rooms := [], semesterType := "even",
    studentCounts := fun _ _ => 0 }

/-- An empty random stream: every draw yields index 0. -/
def rng0 : Rng := []

/-- Eviction oracle removing the first (oldest) history entry. -/
def ev0 : EvictFn := fun _ => 0

/-- Eviction oracle removing the second history entry. -/
def ev1 : EvictFn := fun _ => 1

/-- The `RunResult` of a successful run, with a default for the error case. -/
def runResOf (input : GenInput) (rng : Rng) (ev : EvictFn) : RunResult :=
  match run input rng ev with
  | .ok r => r
  | .error _ => ⟨SchedState.init, [], [], none⟩

/-- The final scheduling state of a run. -/
def runStateOf (input : GenInput) (rng : Rng) (ev : EvictFn) : SchedState :=
  (runResOf input rng ev).state

/-- The first per-section result of the `iSucc` run (the cse semester-2
section, which schedules completely). -/
def c2secres : SectionResult :=
  (runResOf iSucc rng0 ev0).results.headD ⟨⟨"", 0, "", 0, []⟩, false, []⟩

/-- The first course assignment of that section. -/
def c2assign : CourseAssignment :=
  c2secres.sec.course_assignments.headD ⟨⟨"", "", 0, 0, "", ""⟩, ""⟩

/-- The first per-section result of the `iSucc` run, for the C10 witness. -/
def c10secres : SectionResult :=
  (runResOf iSucc rng0 ev0).results.headD ⟨⟨"", 0, "", 0, []⟩, false, []⟩

/-- The first course assignment of that section, for the C10 witness. -/
def c10assign : CourseAssignment :=
  c10secres.sec.course_assignments.headD ⟨⟨"", "", 0, 0, "", ""⟩, ""⟩

/-! ### Basic lemmas about the timetable dict and busy sets -/

theorem countP_replicate {α : Type} (p : α → Bool) (n : Nat) (x : α) :
    (List.replicate n x).countP p = if p x then n else 0 := by
  induction n with
  | zero => simp
  | succ k ih =>
    rw [List.replicate_succ, List.countP_cons, ih]
    by_cases hp : p x = true <;> simp [hp]

theorem lookupTT_setTT (tt : List (String × List TimeTableSlot)) (n : String)
    (v : List TimeTableSlot) (m : String) :
    lookupTT (setTT tt n v) m = if n = m then v else lookupTT tt m := by
  induction tt with
  | nil =>
    by_cases h : n = m <;> simp [setTT, lookupTT, h]
  | cons e rest ih =>
    rcases e with ⟨k, w⟩
    by_cases h : k = n
    · subst h
      by_cases h2 : k = m <;> simp [setTT, lookupTT, h2]
    · by_cases h2 : k = m
      · subst h2
        have h3 : ¬n = k := fun hh => h hh.symm
        simp [setTT, lookupTT, h, h3]
      · simp [setTT, lookupTT, h, h2, ih]

theorem keys_setTT (tt : List (String × List TimeTableSlot)) (n : String)
    (v : List TimeTableSlot) (m : String) :
    m ∈ (setTT tt n v).map Prod.fst ↔ m = n ∨ m ∈ tt.map Prod.fst := by
  induction tt with
  | nil => simp [setTT]
  | cons e rest ih =>
    rcases e with ⟨k, w⟩
    by_cases h : k = n
    · subst h
      simp [setTT]
    · simp [setTT, h, ih]
      tauto

theorem allOf_cons (e : String × List TimeTableSlot)
    (rest : List (String × List TimeTableSlot)) :
    allOf (e :: rest) = e.2 ++ allOf rest := rfl

theorem appendSlotTT_cons_ne {k : String} {w : List TimeTableSlot}
    {rest : List (String × List TimeTableSlot)} {n : String}
    {s : TimeTableSlot} (h : ¬k = n) :
    appendSlotTT ((k, w) :: rest) n s = (k, w) :: appendSlotTT rest n s := by
  simp [appendSlotTT, lookupTT, setTT, h, fun hh : n = k => h hh.symm]

theorem allOf_appendSlot (tt : List (String × List TimeTableSlot)) (n : String)
    (s : TimeTableSlot) (p : TimeTableSlot → Bool) :
    (allOf (appendSlotTT tt n s)).countP p
      = (allOf tt).countP p + if p s then 1 else 0 := by
  induction tt with
  | nil =>
    simp [appendSlotTT, lookupTT, setTT, allOf, catMap, List.countP_cons]
  | cons e rest ih =>
    rcases e with ⟨k, w⟩
    by_cases h : k = n
    · subst h
      simp [appendSlotTT, lookupTT, setTT, allOf, catMap, List.countP_append,
        List.countP_cons]
      omega
    · rw [appendSlotTT_cons_ne h, allOf_cons, allOf_cons, List.countP_append,
        List.countP_append, ih]
      omega

theorem allOf_reset_le (tt : List (String × List TimeTableSlot)) (n : String)
    (p : TimeTableSlot → Bool) :
    (allOf (setTT tt n [])).countP p ≤ (allOf tt).countP p := by
  induction tt with
  | nil => simp [setTT, allOf, catMap]
  | cons e rest ih =>
    rcases e with ⟨k, w⟩
    by_cases h : k = n
    · subst h
      simp [setTT, allOf, catMap, List.countP_append]
    · rw [show setTT ((k, w) :: rest) n [] = (k, w) :: setTT rest n []
          from by simp [setTT, h]]
      rw [allOf_cons, allOf_cons, List.countP_append, List.countP_append]
      omega

theorem mem_allOf_appendSlot {tt : List (String × List TimeTableSlot)}
    {n : String} {s x : TimeTableSlot} :
    x ∈ allOf (appendSlotTT tt n s) → x ∈ allOf tt ∨ x = s := by
  induction tt with
  | nil =>
    simp [appendSlotTT, lookupTT, setTT, allOf, catMap]
  | cons e rest ih =>
    rcases e with ⟨k, w⟩
    by_cases h : k = n
    · subst h
      simp [appendSlotTT, lookupTT, setTT, allOf, catMap]
      tauto
    · rw [appendSlotTT_cons_ne h, allOf_cons, allOf_cons]
      simp only [List.mem_append]
      intro hx
      rcases hx with hx | hx
      · exact Or.inl (Or.inl hx)
      · rcases ih hx with hh | hh
        · exact Or.inl (Or.inr hh)
        · exact Or.inr hh

theorem mem_allOf_reset {tt : List (String × List TimeTableSlot)} {n : String}
    {x : TimeTableSlot} :
    x ∈ allOf (setTT tt n []) → x ∈ allOf tt := by
  induction tt with
  | nil => simp [setTT, allOf, catMap]
  | cons e rest ih =>
    rcases e with ⟨k, w⟩
    by_cases h : k = n
    · subst h
      simp [setTT, allOf, catMap]
      tauto
    · rw [show setTT ((k, w) :: rest) n [] = (k, w) :: setTT rest n []
          from by simp [setTT, h]]
      rw [allOf_cons, allOf_cons]
      simp only [List.mem_append]
      intro hx
      rcases hx with hx | hx
      · exact Or.inl hx
      · exact Or.inr (ih hx)

theorem mem_setAdd {l : List String} {x y : String} :
    x ∈ setAdd l y ↔ x ∈ l ∨ x = y := by
  by_cases h : y ∈ l
  · simp only [setAdd, if_pos h]
    constructor
    · exact fun hx => Or.inl hx
    · rintro (hx | rfl)
      · exact hx
      · exact h
  · simp [setAdd, h]

theorem countP_setAdd_not_mem {l : List String} {y : String} (h : y ∉ l)
    (p : String → Bool) :
    (setAdd l y).countP p = l.countP p + if p y then 1 else 0 := by
  simp [setAdd, h, List.countP_append, List.countP_cons]

/-! ### The availability guard and single commits -/

theorem morning_not_afternoon {t : String} (h : t ∈ MORNING_SLOTS) :
    t ∉ AFTERNOON_SLOTS := by
  fin_cases h <;> decide

theorem isSlotAvailable_iff (st : SchedState) (f n r d t : String) :
    isSlotAvailable st f n r d t = true ↔
      (t ∉ st.facultySchedule f d ∧ t ∉ st.sectionSchedule n d ∧
       t ∉ st.roomSchedule r d ∧ st.dailyCount n d < 4 ∧
       (t ∈ MORNING_SLOTS → listMorn st n d < 3) ∧
       (t ∉ MORNING_SLOTS → listAft st n d < 2)) := by
  unfold isSlotAvailable
  split_ifs with h1 h2 h3 h4 h5 h6
  · simp [h1]
  · simp [h1, h2]
  · simp [h1, h2, h3]
  · simp [h1, h2, h3]
    omega
  · simp only [false_iff]
    rintro ⟨-, -, -, -, hm, -⟩
    exact absurd (hm h5.1) (by omega)
  · simp only [false_iff]
    rintro ⟨-, -, -, -, -, ha⟩
    exact absurd (ha h6.1) (by omega)
  · simp only [true_iff]
    refine ⟨h1, h2, h3, by omega, ?_, ?_⟩
    · intro hm
      by_contra hc
      exact h5 ⟨hm, by omega⟩
    · intro hm
      by_contra hc
      exact h6 ⟨hm, by omega⟩

theorem countP_commit (st : SchedState) (sec : Section) (a : CourseAssignment)
    (d t : String) (rm : Room) (p : TimeTableSlot → Bool) :
    (allSlots (scheduleSlot st sec a d t rm)).countP p
      = (allSlots st).countP p + if p (mkSlot sec a d t rm) then 1 else 0 :=
  allOf_appendSlot st.timetable sec.name (mkSlot sec a d t rm) p

theorem scheduleSlot_fs (st : SchedState) (sec : Section) (a : CourseAssignment)
    (d t : String) (rm : Room) (f' d' : String) :
    (scheduleSlot st sec a d t rm).facultySchedule f' d'
      = if f' = a.faculty ∧ d' = d then setAdd (st.facultySchedule a.faculty d) t
        else st.facultySchedule f' d' := rfl

theorem scheduleSlot_ss (st : SchedState) (sec : Section) (a : CourseAssignment)
    (d t : String) (rm : Room) (n' d' : String) :
    (scheduleSlot st sec a d t rm).sectionSchedule n' d'
      = if n' = sec.name ∧ d' = d then setAdd (st.sectionSchedule sec.name d) t
        else st.sectionSchedule n' d' := rfl

theorem scheduleSlot_rs (st : SchedState) (sec : Section) (a : CourseAssignment)
    (d t : String) (rm : Room) (r' d' : String) :
    (scheduleSlot st sec a d t rm).roomSchedule r' d'
      = if r' = rm.number ∧ d' = d then setAdd (st.roomSchedule rm.number d) t
        else st.roomSchedule r' d' := rfl

theorem scheduleSlot_dc (st : SchedState) (sec : Section) (a : CourseAssignment)
    (d t : String) (rm : Room) (n' d' : String) :
    (scheduleSlot st sec a d t rm).dailyCount n' d'
      = if n' = sec.name ∧ d' = d then st.dailyCount sec.name d + 1
        else st.dailyCount n' d' := rfl

theorem facCnt_commit (st : SchedState) (sec : Section) (a : CourseAssignment)
    (d t : String) (rm : Room) (f d' t' : String) :
    facCnt (scheduleSlot st sec a d t rm) f d' t'
      = facCnt st f d' t' + if a.faculty = f ∧ d = d' ∧ t = t' then 1 else 0 := by
  unfold facCnt
  rw [countP_commit]
  congr 1
  simp [mkSlot]

theorem secCnt_commit (st : SchedState) (sec : Section) (a : CourseAssignment)
    (d t : String) (rm : Room) (n d' t' : String) :
    secCnt (scheduleSlot st sec a d t rm) n d' t'
      = secCnt st n d' t' + if sec.name = n ∧ d = d' ∧ t = t' then 1 else 0 := by
  unfold secCnt
  rw [countP_commit]
  congr 1
  simp [mkSlot]

theorem roomCnt_commit (st : SchedState) (sec : Section) (a : CourseAssignment)
    (d t : String) (rm : Room) (r d' t' : String) :
    roomCnt (scheduleSlot st sec a d t rm) r d' t'
      = roomCnt st r d' t' + if rm.number = r ∧ d = d' ∧ t = t' then 1 else 0 := by
  unfold roomCnt
  rw [countP_commit]
  congr 1
  simp [mkSlot]

theorem secDayCnt_commit (st : SchedState) (sec : Section) (a : CourseAssignment)
    (d t : String) (rm : Room) (n d' : String) :
    secDayCnt (scheduleSlot st sec a d t rm) n d'
      = secDayCnt st n d' + if sec.name = n ∧ d = d' then 1 else 0 := by
  unfold secDayCnt
  rw [countP_commit]
  congr 1
  simp [mkSlot]

theorem mornCnt_commit (st : SchedState) (sec : Section) (a : CourseAssignment)
    (d t : String) (rm : Room) (n d' : String) :
    mornCnt (scheduleSlot st sec a d t rm) n d'
      = mornCnt st n d'
        + if sec.name = n ∧ d = d' ∧ t ∈ MORNING_SLOTS then 1 else 0 := by
  unfold mornCnt
  rw [countP_commit]
  congr 1
  simp [mkSlot]

theorem aftCnt_commit (st : SchedState) (sec : Section) (a : CourseAssignment)
    (d t : String) (rm : Room) (n d' : String) :
    aftCnt (scheduleSlot st sec a d t rm) n d'
      = aftCnt st n d'
        + if sec.name = n ∧ d = d' ∧ t ∈ AFTERNOON_SLOTS then 1 else 0 := by
  unfold aftCnt
  rw [countP_commit]
  congr 1
  simp [mkSlot]

theorem inv_commit {st : SchedState} {sec : Section} {a : CourseAssignment}
    {d t : String} {rm : Room} (hInv : Inv st)
    (hav : isSlotAvailable st a.faculty sec.name rm.number d t = true)
    (hcap : sec.student_count ≤ rm.capacity) :
    Inv (scheduleSlot st sec a d t rm) := by
  obtain ⟨hBL, hNDB, hCL, hCap⟩ := hInv
  rw [isSlotAvailable_iff] at hav
  obtain ⟨hf, hs, hr, hdc, hm, haf⟩ := hav
  refine ⟨?_, ?_, ?_, ?_⟩
  · -- BusyLink
    intro d' t'
    refine ⟨?_, ?_, ?_⟩
    · intro f' hmem
      rw [facCnt_commit]
      by_cases hmatch : a.faculty = f' ∧ d = d' ∧ t = t'
      · exfalso
        obtain ⟨h1, h2, h3⟩ := hmatch
        subst h1; subst h2; subst h3
        apply hmem
        rw [scheduleSlot_fs]
        simp only [and_self, if_pos]
        exact mem_setAdd.2 (Or.inr rfl)
      · rw [if_neg hmatch, Nat.add_zero]
        apply (hBL d' t').1 f'
        intro hold
        apply hmem
        rw [scheduleSlot_fs]
        by_cases hk : f' = a.faculty ∧ d' = d
        · rw [if_pos hk]
          exact mem_setAdd.2 (Or.inl (hk.1 ▸ hk.2 ▸ hold))
        · rw [if_neg hk]
          exact hold
    · intro n' hmem
      rw [secCnt_commit]
      by_cases hmatch : sec.name = n' ∧ d = d' ∧ t = t'
      · exfalso
        obtain ⟨h1, h2, h3⟩ := hmatch
        subst h1; subst h2; subst h3
        apply hmem
        rw [scheduleSlot_ss]
        simp only [and_self, if_pos]
        exact mem_setAdd.2 (Or.inr rfl)
      · rw [if_neg hmatch, Nat.add_zero]
        apply (hBL d' t').2.1 n'
        intro hold
        apply hmem
        rw [scheduleSlot_ss]
        by_cases hk : n' = sec.name ∧ d' = d
        · rw [if_pos hk]
          exact mem_setAdd.2 (Or.inl (hk.1 ▸ hk.2 ▸ hold))
        · rw [if_neg hk]
          exact hold
    · intro r' hmem
      rw [roomCnt_commit]
      by_cases hmatch : rm.number = r' ∧ d = d' ∧ t = t'
      · exfalso
        obtain ⟨h1, h2, h3⟩ := hmatch
        subst h1; subst h2; subst h3
        apply hmem
        rw [scheduleSlot_rs]
        simp only [and_self, if_pos]
        exact mem_setAdd.2 (Or.inr rfl)
      · rw [if_neg hmatch, Nat.add_zero]
        apply (hBL d' t').2.2 r'
        intro hold
        apply hmem
        rw [scheduleSlot_rs]
        by_cases hk : r' = rm.number ∧ d' = d
        · rw [if_pos hk]
          exact mem_setAdd.2 (Or.inl (hk.1 ▸ hk.2 ▸ hold))
        · rw [if_neg hk]
          exact hold
  · -- NoDoubleBooking
    intro d' t'
    refine ⟨?_, ?_, ?_⟩
    · intro f'
      rw [facCnt_commit]
      by_cases hmatch : a.faculty = f' ∧ d = d' ∧ t = t'
      · obtain ⟨h1, h2, h3⟩ := hmatch
        subst h1; subst h2; subst h3
        have h0 : facCnt st a.faculty d t = 0 := (hBL d t).1 a.faculty hf
        simp [h0]
      · rw [if_neg hmatch, Nat.add_zero]
        exact (hNDB d' t').1 f'
    · intro n'
      rw [secCnt_commit]
      by_cases hmatch : sec.name = n' ∧ d = d' ∧ t = t'
      · obtain ⟨h1, h2, h3⟩ := hmatch
        subst h1; subst h2; subst h3
        have h0 : secCnt st sec.name d t = 0 := (hBL d t).2.1 sec.name hs
        simp [h0]
      · rw [if_neg hmatch, Nat.add_zero]
        exact (hNDB d' t').2.1 n'
    · intro r'
      rw [roomCnt_commit]
      by_cases hmatch : rm.number = r' ∧ d = d' ∧ t = t'
      · obtain ⟨h1, h2, h3⟩ := hmatch
        subst h1; subst h2; subst h3
        have h0 : roomCnt st rm.number d t = 0 := (hBL d t).2.2 rm.number hr
        simp [h0]
      · rw [if_neg hmatch, Nat.add_zero]
        exact (hNDB d' t').2.2 r'
  · -- CapsLink
    intro n' d'
    by_cases hk : n' = sec.name ∧ d' = d
    · obtain ⟨h1, h2⟩ := hk
      subst h1
      have h2s : d = d' := h2.symm
      subst h2s
      obtain ⟨hb1, hb2, hb3, hb4, hb5, hb6⟩ := hCL sec.name d
      have hcnd : sec.name = sec.name ∧ d = d := ⟨rfl, rfl⟩
      have hdc2 : (scheduleSlot st sec a d t rm).dailyCount sec.name d
          = st.dailyCount sec.name d + 1 := by
        rw [scheduleSlot_dc, if_pos hcnd]
      have hsd : secDayCnt (scheduleSlot st sec a d t rm) sec.name d
          = secDayCnt st sec.name d + 1 := by
        rw [secDayCnt_commit, if_pos hcnd]
      have hmc : mornCnt (scheduleSlot st sec a d t rm) sec.name d
          = mornCnt st sec.name d + if t ∈ MORNING_SLOTS then 1 else 0 := by
        rw [mornCnt_commit]
        congr 1
        simp
      have hac : aftCnt (scheduleSlot st sec a d t rm) sec.name d
          = aftCnt st sec.name d + if t ∈ AFTERNOON_SLOTS then 1 else 0 := by
        rw [aftCnt_commit]
        congr 1
        simp
      have hlm : listMorn (scheduleSlot st sec a d t rm) sec.name d
          = listMorn st sec.name d + if t ∈ MORNING_SLOTS then 1 else 0 := by
        unfold listMorn
        rw [scheduleSlot_ss, if_pos hcnd, countP_setAdd_not_mem hs]
        congr 1
        simp
      have hla : listAft (scheduleSlot st sec a d t rm) sec.name d
          = listAft st sec.name d + if t ∈ AFTERNOON_SLOTS then 1 else 0 := by
        unfold listAft
        rw [scheduleSlot_ss, if_pos hcnd, countP_setAdd_not_mem hs]
        congr 1
        simp
      rw [hdc2, hsd, hmc, hac, hlm, hla]
      by_cases ht : t ∈ MORNING_SLOTS
      · have hta : t ∉ AFTERNOON_SLOTS := morning_not_afternoon ht
        have hm2 := hm ht
        rw [if_pos ht, if_neg hta]
        refine ⟨by omega, by omega, by omega, by omega, by omega, by omega⟩
      · have ha2 := haf ht
        rw [if_neg ht]
        by_cases hta : t ∈ AFTERNOON_SLOTS
        · rw [if_pos hta]
          refine ⟨by omega, by omega, by omega, by omega, by omega, by omega⟩
        · rw [if_neg hta]
          refine ⟨by omega, by omega, by omega, by omega, by omega, by omega⟩
    · obtain ⟨hc1, hc2, hc3, hc4, hc5, hc6⟩ := hCL n' d'
      have hk2 : ¬(sec.name = n' ∧ d = d') := fun hh => hk ⟨hh.1.symm, hh.2.symm⟩
      have hlm : listMorn (scheduleSlot st sec a d t rm) n' d' = listMorn st n' d' := by
        unfold listMorn
        rw [scheduleSlot_ss, if_neg hk]
      have hla : listAft (scheduleSlot st sec a d t rm) n' d' = listAft st n' d' := by
        unfold listAft
        rw [scheduleSlot_ss, if_neg hk]
      have hk3 : ¬(sec.name = n' ∧ d = d' ∧ t ∈ MORNING_SLOTS) :=
        fun hh => hk2 ⟨hh.1, hh.2.1⟩
      have hk4 : ¬(sec.name = n' ∧ d = d' ∧ t ∈ AFTERNOON_SLOTS) :=
        fun hh => hk2 ⟨hh.1, hh.2.1⟩
      rw [scheduleSlot_dc, if_neg hk, secDayCnt_commit, if_neg hk2,
        mornCnt_commit, if_neg hk3, aftCnt_commit, if_neg hk4, hlm, hla]
      refine ⟨by omega, by omega, by omega, by omega, by omega, by omega⟩
  · -- CapacityOk
    intro s hmem
    rcases mem_allOf_appendSlot hmem with hold | hnew
    · exact hCap s hold
    · subst hnew
      exact hcap

theorem inv_reset {st : SchedState} (n : String) (hInv : Inv st) :
    Inv (resetSection st n) := by
  obtain ⟨hBL, hNDB, hCL, hCap⟩ := hInv
  refine ⟨?_, ?_, ?_, ?_⟩
  · intro d t
    refine ⟨?_, ?_, ?_⟩
    · intro f hmem
      have hle : facCnt (resetSection st n) f d t ≤ facCnt st f d t :=
        allOf_reset_le st.timetable n _
      have h0 : facCnt st f d t = 0 := (hBL d t).1 f hmem
      omega
    · intro m hmem
      have hle : secCnt (resetSection st n) m d t ≤ secCnt st m d t :=
        allOf_reset_le st.timetable n _
      have h0 : secCnt st m d t = 0 := (hBL d t).2.1 m hmem
      omega
    · intro r hmem
      have hle : roomCnt (resetSection st n) r d t ≤ roomCnt st r d t :=
        allOf_reset_le st.timetable n _
      have h0 : roomCnt st r d t = 0 := (hBL d t).2.2 r hmem
      omega
  · intro d t
    refine ⟨?_, ?_, ?_⟩
    · intro f
      have hle : facCnt (resetSection st n) f d t ≤ facCnt st f d t :=
        allOf_reset_le st.timetable n _
      have := (hNDB d t).1 f
      omega
    · intro m
      have hle : secCnt (resetSection st n) m d t ≤ secCnt st m d t :=
        allOf_reset_le st.timetable n _
      have := (hNDB d t).2.1 m
      omega
    · intro r
      have hle : roomCnt (resetSection st n) r d t ≤ roomCnt st r d t :=
        allOf_reset_le st.timetable n _
      have := (hNDB d t).2.2 r
      omega
  · intro m d
    obtain ⟨hc1, hc2, hc3, hc4, hc5, hc6⟩ := hCL m d
    have hle1 : secDayCnt (resetSection st n) m d ≤ secDayCnt st m d :=
      allOf_reset_le st.timetable n _
    have hle2 : mornCnt (resetSection st n) m d ≤ mornCnt st m d :=
      allOf_reset_le st.timetable n _
    have hle3 : aftCnt (resetSection st n) m d ≤ aftCnt st m d :=
      allOf_reset_le st.timetable n _
    have e1 : (resetSection st n).dailyCount m d = st.dailyCount m d := rfl
    have e2 : listMorn (resetSection st n) m d = listMorn st m d := rfl
    have e3 : listAft (resetSection st n) m d = listAft st m d := rfl
    refine ⟨by omega, by omega, by omega, by omega, by omega, by omega⟩
  · intro s hmem
    exact hCap s (mem_allOf_reset hmem)

theorem inv_init : Inv SchedState.init := by
  have hnil : allSlots SchedState.init = [] := rfl
  refine ⟨?_, ?_, ?_, ?_⟩
  · intro d t
    refine ⟨fun f _ => ?_, fun m _ => ?_, fun r _ => ?_⟩ <;>
      simp [facCnt, secCnt, roomCnt, hnil]
  · intro d t
    refine ⟨fun f => ?_, fun m => ?_, fun r => ?_⟩ <;>
      simp [facCnt, secCnt, roomCnt, hnil]
  · intro m d
    have e0 : SchedState.init.dailyCount m d = 0 := rfl
    have e1 : secDayCnt SchedState.init m d = 0 := rfl
    have e2 : mornCnt SchedState.init m d = 0 := rfl
    have e3 : aftCnt SchedState.init m d = 0 := rfl
    have e4 : listMorn SchedState.init m d = 0 := rfl
    have e5 : listAft SchedState.init m d = 0 := rfl
    refine ⟨by omega, by omega, by omega, by omega, by omega, by omega⟩
  · intro s hmem
    rw [hnil] at hmem
    cases hmem

theorem reaches_inv {s0 st : SchedState} (h0 : Inv s0) (h : Reaches s0 st) :
    Inv st := by
  induction h with
  | refl => exact h0
  | commit sec a day time room hr hav hcap ih => exact inv_commit ih hav hcap
  | reset n hr ih => exact inv_reset n ih

/-! ### The run performs only guarded commits and resets -/

theorem reaches_trans {a b c : SchedState} (h1 : Reaches a b) (h2 : Reaches b c) :
    Reaches a c := by
  induction h2 with
  | refl => exact h1
  | commit sec x day time room hr hav hcap ih =>
    exact Reaches.commit sec x day time room ih hav hcap
  | reset n hr ih => exact Reaches.reset n ih

theorem minByLt_mem (lt : Room → Room → Bool) :
    ∀ (l : List Room) (best : Room), minByLt lt best l ∈ best :: l := by
  intro l
  induction l with
  | nil => intro best; simp [minByLt]
  | cons r rest ih =>
    intro best
    unfold minByLt
    by_cases h : lt r best = true
    · rw [if_pos h]
      exact List.mem_cons_of_mem best (ih r)
    · rw [if_neg h]
      rcases List.mem_cons.1 (ih best) with h1 | h1
      · rw [h1]
        exact List.mem_cons_self _ _
      · exact List.mem_cons_of_mem best (List.mem_cons_of_mem r h1)

theorem selectBestRoom_mem (st : SchedState) (r0 : Room) (rs : List Room)
    (code : String) (hist : HistFn) (n : String) :
    selectBestRoom st r0 rs code hist n ∈ r0 :: rs := by
  cases hu : (r0 :: rs).filter (fun r => decide (r.number ∉ hist code)) with
  | nil =>
    have heq : selectBestRoom st r0 rs code hist n
        = minByLt
            (fun a b =>
              let cnt := fun r : Room =>
                (lookupTT st.timetable n).countP
                  (fun s => decide (s.room.number = r.number ∧ s.course.code = code))
              decide (cnt a < cnt b ∨ (cnt a = cnt b ∧ a.capacity < b.capacity)))
            r0 rs := by
      simp only [selectBestRoom, hu]
    rw [heq]
    exact minByLt_mem _ rs r0
  | cons u0 us =>
    have heq : selectBestRoom st r0 rs code hist n
        = minByLt (fun a b => decide (a.capacity < b.capacity)) u0 us := by
      simp only [selectBestRoom, hu]
    rw [heq]
    have hm : minByLt (fun a b => decide (a.capacity < b.capacity)) u0 us ∈ u0 :: us :=
      minByLt_mem _ us u0
    rw [← hu] at hm
    exact List.mem_of_mem_filter hm

theorem trySlots_structure {rooms : List Room} {sec : Section}
    {a : CourseAssignment} {day : String} {ev : EvictFn} {st : SchedState}
    {hist : HistFn} :
    ∀ {ts : List String} {out : SchedState × HistFn},
    trySlots rooms sec a day ev st hist ts = some out →
    ∃ t rm, isSlotAvailable st a.faculty sec.name rm.number day t = true ∧
      sec.student_count ≤ rm.capacity ∧ out.1 = scheduleSlot st sec a day t rm := by
  intro ts
  induction ts with
  | nil => intro out h; simp [trySlots] at h
  | cons t ts ih =>
    intro out h
    unfold trySlots at h
    cases hfil : rooms.filter (fun r =>
        decide (sec.student_count ≤ r.capacity) &&
        isSlotAvailable st a.faculty sec.name r.number day t) with
    | nil =>
      rw [hfil] at h
      exact ih h
    | cons r0 rs =>
      rw [hfil] at h
      have hmem : selectBestRoom st r0 rs a.course.code hist sec.name ∈ r0 :: rs :=
        selectBestRoom_mem st r0 rs a.course.code hist sec.name
    -- the selected room passed the capacity and availability filter
      rw [← hfil] at hmem
      have hp := (List.mem_filter.1 hmem).2
      rw [Bool.and_eq_true, decide_eq_true_eq] at hp
      refine ⟨t, selectBestRoom st r0 rs a.course.code hist sec.name, hp.2, hp.1, ?_⟩
      cases h
      rfl

theorem tryDays_structure {rooms : List Room} {sec : Section}
    {a : CourseAssignment} {ev : EvictFn} {st : SchedState} {hist : HistFn} :
    ∀ {ds : List String} {out : SchedState × HistFn},
    tryDays rooms sec a ev st hist ds = some out →
    ∃ d t rm, isSlotAvailable st a.faculty sec.name rm.number d t = true ∧
      sec.student_count ≤ rm.capacity ∧ out.1 = scheduleSlot st sec a d t rm := by
  intro ds
  induction ds with
  | nil => intro out h; simp [tryDays] at h
  | cons d ds ih =>
    intro out h
    unfold tryDays at h
    cases htc : tryScheduleCourse rooms sec a d ev st hist with
    | some r =>
      rw [htc] at h
      cases h
      unfold tryScheduleCourse at htc
      obtain ⟨t, rm, hav, hcap, heq⟩ := trySlots_structure htc
      exact ⟨d, t, rm, hav, hcap, heq⟩
    | none =>
      rw [htc] at h
      exact ih h

theorem tryDays_step {rooms : List Room} {sec : Section} {a : CourseAssignment}
    {ev : EvictFn} {st : SchedState} {hist : HistFn} {ds : List String}
    {out : SchedState × HistFn}
    (h : tryDays rooms sec a ev st hist ds = some out) : Reaches st out.1 := by
  obtain ⟨d, t, rm, hav, hcap, heq⟩ := tryDays_structure h
  rw [heq]
  exact Reaches.commit sec a d t rm (Reaches.refl st) hav hcap

theorem attemptGo_reaches (rooms : List Room) (sec : Section) (ev : EvictFn) :
    ∀ (l : List CourseAssignment) (st : SchedState) (rem : Course → Int)
      (hist : HistFn),
    Reaches st (attemptGo rooms sec ev l st rem hist).1 := by
  intro l
  induction l with
  | nil => intro st rem hist; exact Reaches.refl st
  | cons a rest ih =>
    intro st rem hist
    unfold attemptGo
    by_cases hg : rem a.course ≤ 0
    · rw [if_pos hg]
      exact ih st rem hist
    · rw [if_neg hg]
      cases htd : tryDays rooms sec a ev st hist (sortedDays st sec.name) with
      | some r =>
        exact reaches_trans (tryDays_step htd) (ih r.1 _ r.2)
      | none =>
        exact ih st rem hist

theorem attemptLoop_reaches (rooms : List Room) (sec : Section) (ev : EvictFn) :
    ∀ (fuel : Nat) (st : SchedState) (rem : Course → Int) (hist : HistFn)
      (rng : Rng),
    Reaches st (attemptLoop rooms sec ev fuel st rem hist rng).1 := by
  intro fuel
  induction fuel with
  | zero => intro st rem hist rng; exact Reaches.refl st
  | succ f ih =>
    intro st rem hist rng
    unfold attemptLoop
    by_cases hg : anyRem sec.course_assignments rem = true
    · rw [if_pos hg]
      have h1 : Reaches st (attemptScheduleCourses rooms sec st rem hist rng ev).1 :=
        attemptGo_reaches rooms sec ev _ st rem hist
      exact reaches_trans h1 (ih _ _ _ _)
    · rw [if_neg hg]
      exact Reaches.refl st

theorem genSec_state (rooms : List Room) (sec : Section) (st : SchedState)
    (rng : Rng) (ev : EvictFn) :
    (generateSectionTimetable rooms sec st rng ev).state
      = if sec.course_assignments = [] then resetSection st sec.name
        else (attemptLoop rooms sec ev 100 (resetSection st sec.name)
            (initRem sec.course_assignments) (fun _ => []) rng).1 := by
  by_cases hc : sec.course_assignments = []
  · simp [generateSectionTimetable, hc]
  · cases hg : anyRem sec.course_assignments
        (attemptLoop rooms sec ev 100 (resetSection st sec.name)
          (initRem sec.course_assignments) (fun _ => []) rng).2.1 <;>
      simp [generateSectionTimetable, hc, hg]

theorem genSec_reaches (rooms : List Room) (sec : Section) (st : SchedState)
    (rng : Rng) (ev : EvictFn) :
    Reaches st (generateSectionTimetable rooms sec st rng ev).state := by
  rw [genSec_state]
  by_cases hc : sec.course_assignments = []
  · rw [if_pos hc]
    exact Reaches.reset sec.name (Reaches.refl st)
  · rw [if_neg hc]
    exact reaches_trans (Reaches.reset sec.name (Reaches.refl st))
      (attemptLoop_reaches rooms sec ev 100 (resetSection st sec.name)
        (initRem sec.course_assignments) (fun _ => []) rng)

theorem foldSections_reaches (rooms : List Room) (ev : EvictFn) :
    ∀ (secs : List Section) (st : SchedState) (rng : Rng),
    Reaches st (foldSections rooms ev secs st rng).1 := by
  intro secs
  induction secs with
  | nil => intro st rng; exact Reaches.refl st
  | cons sec rest ih =>
    intro st rng
    exact reaches_trans (genSec_reaches rooms sec st rng ev) (ih _ _)

theorem generateTimetable_state (data : InitData) (rng : Rng) (ev : EvictFn) :
    (generateTimetable data rng ev).state
      = if data.sections = [] then SchedState.init
        else (foldSections data.rooms ev data.sections SchedState.init rng).1 := by
  by_cases hs : data.sections = []
  · simp [generateTimetable, hs]
  · cases hg : (foldSections data.rooms ev data.sections SchedState.init rng).2.2.2.2 <;>
      simp [generateTimetable, hs, hg]

theorem run_reaches {input : GenInput} {rng : Rng} {ev : EvictFn}
    {res : RunResult} (h : run input rng ev = .ok res) :
    Reaches SchedState.init res.state := by
  unfold run at h
  cases hin : initializeData input rng with
  | error e =>
    rw [hin] at h
    cases h
  | ok r =>
    rw [hin] at h
    cases h
    rw [generateTimetable_state]
    by_cases hs : r.1.sections = []
    · rw [if_pos hs]
      exact Reaches.refl _
    · rw [if_neg hs]
      exact foldSections_reaches r.1.rooms ev r.1.sections SchedState.init r.2

/-! ### The run succeeds whenever at least one room exists -/

theorem initGo_ok (input : GenInput) (h : input.rooms ≠ []) :
    ∀ (ps : List (String × Nat)) (rng : Rng),
    ∃ out, initGo input ps rng = .ok out := by
  intro ps
  induction ps with
  | nil => intro rng; exact ⟨_, rfl⟩
  | cons p rest ih =>
    intro rng
    rcases p with ⟨b, s⟩
    cases hr : input.rooms with
    | nil => exact absurd hr h
    | cons r0 rs =>
      have hb : ∃ o, buildSectionsFor input rng b s = .ok o := by
        unfold buildSectionsFor
        rw [hr]
        exact ⟨_, rfl⟩
      obtain ⟨o, hbo⟩ := hb
      obtain ⟨o2, ho2⟩ := ih o.2
      refine ⟨(o.1 ++ o2.1, o2.2), ?_⟩
      simp [initGo, hbo, ho2]

theorem initializeData_ok (input : GenInput) (rng : Rng)
    (h : input.rooms ≠ []) :
    ∃ out, initializeData input rng = .ok out := by
  obtain ⟨o, ho⟩ := initGo_ok input h (pairsFor input.semesterType) rng
  refine ⟨({ rooms := input.rooms, sections := o.1 }, o.2), ?_⟩
  simp [initializeData, ho]

theorem run_ok (input : GenInput) (rng : Rng) (ev : EvictFn)
    (h : input.rooms ≠ []) :
    run input rng ev = .ok (runResOf input rng ev) := by
  obtain ⟨out, ho⟩ := initializeData_ok input rng h
  have hrun : run input rng ev = .ok (generateTimetable out.1 out.2 ev) := by
    simp [run, ho]
  rw [hrun]
  simp [runResOf, hrun]

/-! ### Claims C1, C3, C4 -/

/-- C1: for every schedule produced by `generate_timetable`, and for every
(day, time-slot) pair, no faculty member, no section and no room appears in
more than one `ScheduledSlot` at that pair; this holds after every
successful placement (every state reachable through guarded commits and
resets), not only at completion.  The second conjunct places every final
state of `run` among the reachable states. -/
theorem c1_no_double_booking :
    (∀ st : SchedState, Reaches SchedState.init st → NoDoubleBooking st) ∧
    (∀ (input : GenInput) (rng : Rng) (ev : EvictFn) (res : RunResult),
      run input rng ev = .ok res → Reaches SchedState.init res.state) := by
  constructor
  · intro st h
    exact (reaches_inv inv_init h).2.1
  · intro input rng ev res h
    exact run_reaches h

/-- Witness for C1 at the concrete input `iSucc`. -/
theorem c1_witness : NoDoubleBooking (runStateOf iSucc rng0 ev0) := by
  have hok : run iSucc rng0 ev0 = .ok (runResOf iSucc rng0 ev0) :=
    run_ok iSucc rng0 ev0 (by simp [iSucc])
  exact c1_no_double_booking.1 _ (c1_no_double_booking.2 iSucc rng0 ev0 _ hok)

/-- C3: for every section and every day, after every successful placement
(every reachable state) the number of sessions that day is at most 4, the
number of morning-slot sessions is at most 3, and the number of
afternoon-slot sessions is at most 2; final run states are reachable. -/
theorem c3_daily_caps :
    (∀ st : SchedState, Reaches SchedState.init st → SectionDailyCaps st) ∧
    (∀ (input : GenInput) (rng : Rng) (ev : EvictFn) (res : RunResult),
      run input rng ev = .ok res → Reaches SchedState.init res.state) := by
  constructor
  · intro st h
    have hCL := (reaches_inv inv_init h).2.2.1
    intro n d
    obtain ⟨h1, h2, h3, h4, h5, h6⟩ := hCL n d
    exact ⟨by omega, by omega, by omega⟩
  · intro input rng ev res h
    exact run_reaches h

/-- Witness for C3 at the concrete input `iSucc`. -/
theorem c3_witness : SectionDailyCaps (runStateOf iSucc rng0 ev0) := by
  have hok : run iSucc rng0 ev0 = .ok (runResOf iSucc rng0 ev0) :=
    run_ok iSucc rng0 ev0 (by simp [iSucc])
  exact c3_daily_caps.1 _ (c3_daily_caps.2 iSucc rng0 ev0 _ hok)

/-- C4: every `ScheduledSlot` in every generated schedule (indeed in every
reachable state) is assigned a room whose capacity is at least the student
count of the slot's section; final run states are reachable. -/
theorem c4_capacity_respected :
    (∀ st : SchedState, Reaches SchedState.init st → CapacityOk st) ∧
    (∀ (input : GenInput) (rng : Rng) (ev : EvictFn) (res : RunResult),
      run input rng ev = .ok res → Reaches SchedState.init res.state) := by
  constructor
  · intro st h
    exact (reaches_inv inv_init h).2.2.2
  · intro input rng ev res h
    exact run_reaches h

/-- Witness for C4 at the concrete input `iSucc`. -/
theorem c4_witness : CapacityOk (runStateOf iSucc rng0 ev0) := by
  have hok : run iSucc rng0 ev0 = .ok (runResOf iSucc rng0 ev0) :=
    run_ok iSucc rng0 ev0 (by simp [iSucc])
  exact c4_capacity_respected.1 _ (c4_capacity_respected.2 iSucc rng0 ev0 _ hok)

/-! ### Hour bookkeeping per section -/

theorem scheduleSlot_timetable (st : SchedState) (sec : Section)
    (a : CourseAssignment) (d t : String) (rm : Room) :
    (scheduleSlot st sec a d t rm).timetable
      = appendSlotTT st.timetable sec.name (mkSlot sec a d t rm) := rfl

theorem cntCourse_commit (st : SchedState) (sec : Section)
    (a : CourseAssignment) (d t : String) (rm : Room) (m : String) (c : Course) :
    cntCourse (scheduleSlot st sec a d t rm) m c
      = cntCourse st m c + if sec.name = m ∧ a.course = c then 1 else 0 := by
  by_cases hm : sec.name = m
  · subst hm
    unfold cntCourse
    rw [scheduleSlot_timetable, appendSlotTT, lookupTT_setTT, if_pos rfl,
      List.countP_append]
    simp [mkSlot, List.countP_cons]
  · have hcond : ¬(sec.name = m ∧ a.course = c) := fun hh => hm hh.1
    unfold cntCourse
    rw [scheduleSlot_timetable, appendSlotTT, lookupTT_setTT, if_neg hm,
      if_neg hcond]
    omega

theorem lookup_commit_ne (st : SchedState) (sec : Section)
    (a : CourseAssignment) (d t : String) (rm : Room) (m : String)
    (hm : ¬sec.name = m) :
    lookupTT (scheduleSlot st sec a d t rm).timetable m
      = lookupTT st.timetable m := by
  rw [scheduleSlot_timetable, appendSlotTT, lookupTT_setTT, if_neg hm]

theorem keys_commit (st : SchedState) (sec : Section) (a : CourseAssignment)
    (d t : String) (rm : Room) (m : String)
    (h : m ∈ st.timetable.map Prod.fst) :
    m ∈ (scheduleSlot st sec a d t rm).timetable.map Prod.fst := by
  rw [scheduleSlot_timetable, appendSlotTT]
  exact (keys_setTT _ _ _ _).2 (Or.inr h)

theorem initRem_go : ∀ (l : List CourseAssignment) (m : Course → Int)
    (c : Course),
    (l.foldl (fun m a => updC m a.course (m a.course + 1)) m) c
      = m c + (multOf c l : Int) := by
  intro l
  induction l with
  | nil => intro m c; simp [multOf]
  | cons a rest ih =>
    intro m c
    rw [List.foldl_cons, ih]
    unfold updC multOf
    rw [List.countP_cons]
    by_cases hc : a.course = c
    · subst hc
      simp
      omega
    · have hc2 : ¬(c = a.course) := fun hh => hc hh.symm
      simp [hc, hc2, multOf]

theorem initRem_eq (l : List CourseAssignment) (c : Course) :
    initRem l c = (multOf c l : Int) := by
  unfold initRem
  rw [initRem_go]
  simp

theorem attemptGo_hourInv (rooms : List Room) (sec : Section) (ev : EvictFn) :
    ∀ (l : List CourseAssignment) (st : SchedState) (rem : Course → Int)
      (hist : HistFn), HourInv sec st rem →
    HourInv sec (attemptGo rooms sec ev l st rem hist).1
      (attemptGo rooms sec ev l st rem hist).2.1 := by
  intro l
  induction l with
  | nil => intro st rem hist h; exact h
  | cons a rest ih =>
    intro st rem hist h
    unfold attemptGo
    by_cases hg : rem a.course ≤ 0
    · rw [if_pos hg]
      exact ih st rem hist h
    · rw [if_neg hg]
      cases htd : tryDays rooms sec a ev st hist (sortedDays st sec.name) with
      | some r =>
        apply ih
        obtain ⟨d2, t2, rm2, hav, hcap, heq⟩ := tryDays_structure htd
        intro c
        obtain ⟨hc1, hc2⟩ := h c
        rw [heq, cntCourse_commit]
        unfold updC
        by_cases hcc : c = a.course
        · subst hcc
          have hcnd : sec.name = sec.name ∧ a.course = a.course := ⟨rfl, rfl⟩
          rw [if_pos hcnd, if_pos rfl]
          refine ⟨by omega, ?_⟩
          push_cast
          omega
        · have hcond : ¬(sec.name = sec.name ∧ a.course = c) :=
            fun hh => hcc hh.2.symm
          rw [if_neg hcond, if_neg hcc, Nat.add_zero]
          exact ⟨hc1, hc2⟩
      | none =>
        exact ih st rem hist h

theorem attemptGo_lookup (rooms : List Room) (sec : Section) (ev : EvictFn) :
    ∀ (l : List CourseAssignment) (st : SchedState) (rem : Course → Int)
      (hist : HistFn) (m : String), ¬sec.name = m →
    lookupTT (attemptGo rooms sec ev l st rem hist).1.timetable m
      = lookupTT st.timetable m := by
  intro l
  induction l with
  | nil => intro st rem hist m hm; rfl
  | cons a rest ih =>
    intro st rem hist m hm
    unfold attemptGo
    by_cases hg : rem a.course ≤ 0
    · rw [if_pos hg]
      exact ih st rem hist m hm
    · rw [if_neg hg]
      cases htd : tryDays rooms sec a ev st hist (sortedDays st sec.name) with
      | some r =>
        obtain ⟨d2, t2, rm2, hav, hcap, heq⟩ := tryDays_structure htd
        rw [ih r.1 _ r.2 m hm, heq, lookup_commit_ne _ _ _ _ _ _ _ hm]
      | none =>
        exact ih st rem hist m hm

theorem attemptGo_keys (rooms : List Room) (sec : Section) (ev : EvictFn) :
    ∀ (l : List CourseAssignment) (st : SchedState) (rem : Course → Int)
      (hist : HistFn) (m : String), m ∈ st.timetable.map Prod.fst →
    m ∈ (attemptGo rooms sec ev l st rem hist).1.timetable.map Prod.fst := by
  intro l
  induction l with
  | nil => intro st rem hist m hmem; exact hmem
  | cons a rest ih =>
    intro st rem hist m hmem
    unfold attemptGo
    by_cases hg : rem a.course ≤ 0
    · rw [if_pos hg]
      exact ih st rem hist m hmem
    · rw [if_neg hg]
      cases htd : tryDays rooms sec a ev st hist (sortedDays st sec.name) with
      | some r =>
        obtain ⟨d2, t2, rm2, hav, hcap, heq⟩ := tryDays_structure htd
        apply ih
        rw [heq]
        exact keys_commit _ _ _ _ _ _ _ hmem
      | none =>
        exact ih st rem hist m hmem

theorem attemptLoop_hourInv (rooms : List Room) (sec : Section) (ev : EvictFn) :
    ∀ (fuel : Nat) (st : SchedState) (rem : Course → Int) (hist : HistFn)
      (rng : Rng), HourInv sec st rem →
    HourInv sec (attemptLoop rooms sec ev fuel st rem hist rng).1
      (attemptLoop rooms sec ev fuel st rem hist rng).2.1 := by
  intro fuel
  induction fuel with
  | zero => intro st rem hist rng h; exact h
  | succ f ih =>
    intro st rem hist rng h
    unfold attemptLoop
    by_cases hg : anyRem sec.course_assignments rem = true
    · rw [if_pos hg]
      exact ih _ _ _ _ (attemptGo_hourInv rooms sec ev _ st rem hist h)
    · rw [if_neg hg]
      exact h

theorem attemptLoop_lookup (rooms : List Room) (sec : Section) (ev : EvictFn) :
    ∀ (fuel : Nat) (st : SchedState) (rem : Course → Int) (hist : HistFn)
      (rng : Rng) (m : String), ¬sec.name = m →
    lookupTT (attemptLoop rooms sec ev fuel st rem hist rng).1.timetable m
      = lookupTT st.timetable m := by
  intro fuel
  induction fuel with
  | zero => intro st rem hist rng m hm; rfl
  | succ f ih =>
    intro st rem hist rng m hm
    unfold attemptLoop
    by_cases hg : anyRem sec.course_assignments rem = true
    · rw [if_pos hg]
      rw [ih _ _ _ _ m hm]
      exact attemptGo_lookup rooms sec ev _ st rem hist m hm
    · rw [if_neg hg]

theorem attemptLoop_keys (rooms : List Room) (sec : Section) (ev : EvictFn) :
    ∀ (fuel : Nat) (st : SchedState) (rem : Course → Int) (hist : HistFn)
      (rng : Rng) (m : String), m ∈ st.timetable.map Prod.fst →
    m ∈ (attemptLoop rooms sec ev fuel st rem hist rng).1.timetable.map Prod.fst := by
  intro fuel
  induction fuel with
  | zero => intro st rem hist rng m hmem; exact hmem
  | succ f ih =>
    intro st rem hist rng m hmem
    unfold attemptLoop
    by_cases hg : anyRem sec.course_assignments rem = true
    · rw [if_pos hg]
      exact ih _ _ _ _ m (attemptGo_keys rooms sec ev _ st rem hist m hmem)
    · rw [if_neg hg]
      exact hmem

/-! ### Per-section outcome of `_generate_section_timetable` -/

theorem genSec_result (rooms : List Room) (sec : Section) (st : SchedState)
    (rng : Rng) (ev : EvictFn) :
    (generateSectionTimetable rooms sec st rng ev).result
      = if sec.course_assignments = [] then ⟨sec, false, []⟩
        else if anyRem sec.course_assignments
            (attemptLoop rooms sec ev 100 (resetSection st sec.name)
              (initRem sec.course_assignments) (fun _ => []) rng).2.1 = true then
          ⟨sec, false, deficitsOf sec.course_assignments
            (attemptLoop rooms sec ev 100 (resetSection st sec.name)
              (initRem sec.course_assignments) (fun _ => []) rng).2.1⟩
        else ⟨sec, true, []⟩ := by
  by_cases hc : sec.course_assignments = []
  · simp [generateSectionTimetable, hc]
  · cases hg : anyRem sec.course_assignments
        (attemptLoop rooms sec ev 100 (resetSection st sec.name)
          (initRem sec.course_assignments) (fun _ => []) rng).2.1 <;>
      simp [generateSectionTimetable, hc, hg]

theorem genSec_result_sec (rooms : List Room) (sec : Section) (st : SchedState)
    (rng : Rng) (ev : EvictFn) :
    (generateSectionTimetable rooms sec st rng ev).result.sec = sec := by
  rw [genSec_result]
  split
  · rfl
  · split <;> rfl

theorem genSec_deficits_msg (rooms : List Room) (sec : Section)
    (st : SchedState) (rng : Rng) (ev : EvictFn) :
    (generateSectionTimetable rooms sec st rng ev).result.deficits ≠ [] →
    ("Could not schedule all courses for section " ++ sec.name ++
        " after 100 attempts")
      ∈ (generateSectionTimetable rooms sec st rng ev).msgs := by
  by_cases hc : sec.course_assignments = []
  · simp [generateSectionTimetable, hc]
  · cases hg : anyRem sec.course_assignments
        (attemptLoop rooms sec ev 100 (resetSection st sec.name)
          (initRem sec.course_assignments) (fun _ => []) rng).2.1 <;>
      simp [generateSectionTimetable, hc, hg]

theorem cntCourse_reset (st : SchedState) (n : String) (c : Course) :
    cntCourse (resetSection st n) n c = 0 := by
  unfold cntCourse
  show (lookupTT (setTT st.timetable n []) n).countP _ = 0
  rw [lookupTT_setTT, if_pos rfl]
  rfl

theorem genSec_hours (rooms : List Room) (sec : Section) (st : SchedState)
    (rng : Rng) (ev : EvictFn) :
    (∀ c, cntCourse (generateSectionTimetable rooms sec st rng ev).state sec.name c
        ≤ multOf c sec.course_assignments) ∧
    ((generateSectionTimetable rooms sec st rng ev).result.success = true →
      ∀ c, cntCourse (generateSectionTimetable rooms sec st rng ev).state sec.name c
        = multOf c sec.course_assignments) := by
  by_cases hc : sec.course_assignments = []
  · constructor
    · intro c
      have hstate : (generateSectionTimetable rooms sec st rng ev).state
          = resetSection st sec.name := by
        rw [genSec_state, if_pos hc]
      rw [hstate, cntCourse_reset]
      exact Nat.zero_le _
    · intro hsucc
      rw [genSec_result, if_pos hc] at hsucc
      cases hsucc
  · have hInv0 : HourInv sec (resetSection st sec.name)
        (initRem sec.course_assignments) := by
      intro c
      constructor
      · rw [initRem_eq]
        exact_mod_cast Nat.zero_le _
      · rw [initRem_eq, cntCourse_reset]
        simp
    have hInv := attemptLoop_hourInv rooms sec ev 100 _ _ (fun _ => []) rng hInv0
    have hstate : (generateSectionTimetable rooms sec st rng ev).state
        = (attemptLoop rooms sec ev 100 (resetSection st sec.name)
            (initRem sec.course_assignments) (fun _ => []) rng).1 := by
      rw [genSec_state, if_neg hc]
    constructor
    · intro c
      obtain ⟨h1, h2⟩ := hInv c
      rw [hstate]
      omega
    · intro hsucc c
      have hany : anyRem sec.course_assignments
          (attemptLoop rooms sec ev 100 (resetSection st sec.name)
            (initRem sec.course_assignments) (fun _ => []) rng).2.1 = false := by
        rw [genSec_result, if_neg hc] at hsucc
        cases hb : anyRem sec.course_assignments
            (attemptLoop rooms sec ev 100 (resetSection st sec.name)
              (initRem sec.course_assignments) (fun _ => []) rng).2.1 with
        | false => rfl
        | true =>
          rw [hb] at hsucc
          simp at hsucc
      have hall : ∀ x ∈ sec.course_assignments,
          ¬(0 < (attemptLoop rooms sec ev 100 (resetSection st sec.name)
              (initRem sec.course_assignments) (fun _ => []) rng).2.1 x.course) := by
        intro x hx hpos
        have htrue : anyRem sec.course_assignments
            (attemptLoop rooms sec ev 100 (resetSection st sec.name)
              (initRem sec.course_assignments) (fun _ => []) rng).2.1 = true := by
          unfold anyRem
          rw [List.any_eq_true]
          exact ⟨x, hx, by simpa using hpos⟩
        rw [htrue] at hany
        cases hany
      obtain ⟨h1, h2⟩ := hInv c
      rw [hstate]
      by_cases hmz : multOf c sec.course_assignments = 0
      · rw [hmz] at h2 ⊢
        omega
      · have hpos : 0 < multOf c sec.course_assignments := Nat.pos_of_ne_zero hmz
        unfold multOf at hpos
        rw [List.countP_pos_iff] at hpos
        obtain ⟨x, hx, hxc⟩ := hpos
        rw [decide_eq_true_eq] at hxc
        have hrem := hall x hx
        rw [hxc] at hrem
        omega

theorem genSec_lookup (rooms : List Room) (sec : Section) (st : SchedState)
    (rng : Rng) (ev : EvictFn) (m : String) (hm : ¬sec.name = m) :
    lookupTT (generateSectionTimetable rooms sec st rng ev).state.timetable m
      = lookupTT st.timetable m := by
  rw [genSec_state]
  by_cases hc : sec.course_assignments = []
  · rw [if_pos hc]
    show lookupTT (setTT st.timetable sec.name []) m = _
    rw [lookupTT_setTT, if_neg hm]
  · rw [if_neg hc]
    rw [attemptLoop_lookup rooms sec ev 100 _ _ _ rng m hm]
    show lookupTT (setTT st.timetable sec.name []) m = _
    rw [lookupTT_setTT, if_neg hm]

theorem genSec_key (rooms : List Room) (sec : Section) (st : SchedState)
    (rng : Rng) (ev : EvictFn) :
    sec.name ∈ (generateSectionTimetable rooms sec st rng ev).state.timetable.map
      Prod.fst := by
  rw [genSec_state]
  by_cases hc : sec.course_assignments = []
  · rw [if_pos hc]
    exact (keys_setTT _ _ _ _).2 (Or.inl rfl)
  · rw [if_neg hc]
    exact attemptLoop_keys rooms sec ev 100 _ _ _ rng sec.name
      ((keys_setTT _ _ _ _).2 (Or.inl rfl))

theorem genSec_keys_mono (rooms : List Room) (sec : Section) (st : SchedState)
    (rng : Rng) (ev : EvictFn) (m : String)
    (h : m ∈ st.timetable.map Prod.fst) :
    m ∈ (generateSectionTimetable rooms sec st rng ev).state.timetable.map
      Prod.fst := by
  rw [genSec_state]
  by_cases hc : sec.course_assignments = []
  · rw [if_pos hc]
    exact (keys_setTT _ _ _ _).2 (Or.inr h)
  · rw [if_neg hc]
    exact attemptLoop_keys rooms sec ev 100 _ _ _ rng m
      ((keys_setTT _ _ _ _).2 (Or.inr h))

/-! ### The section loop of `generate_timetable` -/

theorem foldSections_cons_state (rooms : List Room) (ev : EvictFn)
    (sec : Section) (rest : List Section) (st : SchedState) (rng : Rng) :
    (foldSections rooms ev (sec :: rest) st rng).1
      = (foldSections rooms ev rest
          (generateSectionTimetable rooms sec st rng ev).state
          (generateSectionTimetable rooms sec st rng ev).rng).1 := rfl

theorem foldSections_cons_results (rooms : List Room) (ev : EvictFn)
    (sec : Section) (rest : List Section) (st : SchedState) (rng : Rng) :
    (foldSections rooms ev (sec :: rest) st rng).2.2.1
      = (generateSectionTimetable rooms sec st rng ev).result
        :: (foldSections rooms ev rest
            (generateSectionTimetable rooms sec st rng ev).state
            (generateSectionTimetable rooms sec st rng ev).rng).2.2.1 := rfl

theorem foldSections_cons_msgs (rooms : List Room) (ev : EvictFn)
    (sec : Section) (rest : List Section) (st : SchedState) (rng : Rng) :
    (foldSections rooms ev (sec :: rest) st rng).2.2.2.1
      = ((generateSectionTimetable rooms sec st rng ev).msgs
          ++ (if (generateSectionTimetable rooms sec st rng ev).result.success
              then []
              else ["Failed to generate complete timetable for section " ++ sec.name]))
        ++ (foldSections rooms ev rest
            (generateSectionTimetable rooms sec st rng ev).state
            (generateSectionTimetable rooms sec st rng ev).rng).2.2.2.1 := rfl

theorem foldSections_secs (rooms : List Room) (ev : EvictFn) :
    ∀ (secs : List Section) (st : SchedState) (rng : Rng),
    ((foldSections rooms ev secs st rng).2.2.1).map (fun x => x.sec) = secs := by
  intro secs
  induction secs with
  | nil => intro st rng; rfl
  | cons sec rest ih =>
    intro st rng
    rw [foldSections_cons_results, List.map_cons, genSec_result_sec, ih]

theorem foldSections_lookup (rooms : List Room) (ev : EvictFn) :
    ∀ (secs : List Section) (st : SchedState) (rng : Rng) (m : String),
    m ∉ secs.map (fun s => s.name) →
    lookupTT (foldSections rooms ev secs st rng).1.timetable m
      = lookupTT st.timetable m := by
  intro secs
  induction secs with
  | nil => intro st rng m hm; rfl
  | cons sec rest ih =>
    intro st rng m hm
    rw [List.map_cons, List.mem_cons] at hm
    push_neg at hm
    rw [foldSections_cons_state, ih _ _ m hm.2,
      genSec_lookup rooms sec st rng ev m (fun hh => hm.1 hh.symm)]

theorem foldSections_keys (rooms : List Room) (ev : EvictFn) :
    ∀ (secs : List Section) (st : SchedState) (rng : Rng) (m : String),
    m ∈ st.timetable.map Prod.fst →
    m ∈ (foldSections rooms ev secs st rng).1.timetable.map Prod.fst := by
  intro secs
  induction secs with
  | nil => intro st rng m hm; exact hm
  | cons sec rest ih =>
    intro st rng m hm
    rw [foldSections_cons_state]
    exact ih _ _ m (genSec_keys_mono rooms sec st rng ev m hm)

theorem foldSections_result_keys (rooms : List Room) (ev : EvictFn) :
    ∀ (secs : List Section) (st : SchedState) (rng : Rng) (x : SectionResult),
    x ∈ (foldSections rooms ev secs st rng).2.2.1 →
    x.sec.name ∈ (foldSections rooms ev secs st rng).1.timetable.map Prod.fst := by
  intro secs
  induction secs with
  | nil => intro st rng x hx; cases hx
  | cons sec rest ih =>
    intro st rng x hx
    rw [foldSections_cons_results] at hx
    rw [foldSections_cons_state]
    rcases List.mem_cons.1 hx with rfl | hx
    · rw [genSec_result_sec]
      exact foldSections_keys rooms ev rest _ _ sec.name
        (genSec_key rooms sec st rng ev)
    · exact ih _ _ x hx

theorem foldSections_fail_msg (rooms : List Room) (ev : EvictFn) :
    ∀ (secs : List Section) (st : SchedState) (rng : Rng) (x : SectionResult),
    x ∈ (foldSections rooms ev secs st rng).2.2.1 → x.success = false →
    ("Failed to generate complete timetable for section " ++ x.sec.name)
      ∈ (foldSections rooms ev secs st rng).2.2.2.1 := by
  intro secs
  induction secs with
  | nil => intro st rng x hx; cases hx
  | cons sec rest ih =>
    intro st rng x hx hfail
    rw [foldSections_cons_results] at hx
    rw [foldSections_cons_msgs]
    rcases List.mem_cons.1 hx with rfl | hx
    · rw [genSec_result_sec, hfail]
      simp
    · exact List.mem_append_right _ (ih _ _ x hx hfail)

theorem foldSections_deficit_msg (rooms : List Room) (ev : EvictFn) :
    ∀ (secs : List Section) (st : SchedState) (rng : Rng) (x : SectionResult),
    x ∈ (foldSections rooms ev secs st rng).2.2.1 → x.deficits ≠ [] →
    ("Could not schedule all courses for section " ++ x.sec.name ++
        " after 100 attempts")
      ∈ (foldSections rooms ev secs st rng).2.2.2.1 := by
  intro secs
  induction secs with
  | nil => intro st rng x hx; cases hx
  | cons sec rest ih =>
    intro st rng x hx hdef
    rw [foldSections_cons_results] at hx
    rw [foldSections_cons_msgs]
    rcases List.mem_cons.1 hx with rfl | hx
    · rw [genSec_result_sec]
      exact List.mem_append_left _
        (List.mem_append_left _ (genSec_deficits_msg rooms sec st rng ev hdef))
    · exact List.mem_append_right _ (ih _ _ x hx hdef)

theorem foldSections_counts (rooms : List Room) (ev : EvictFn) :
    ∀ (secs : List Section) (st : SchedState) (rng : Rng),
    (secs.map (fun s => s.name)).Nodup →
    ∀ x ∈ (foldSections rooms ev secs st rng).2.2.1,
      (∀ c, cntCourse (foldSections rooms ev secs st rng).1 x.sec.name c
          ≤ multOf c x.sec.course_assignments) ∧
      (x.success = true →
        ∀ c, cntCourse (foldSections rooms ev secs st rng).1 x.sec.name c
          = multOf c x.sec.course_assignments) := by
  intro secs
  induction secs with
  | nil => intro st rng hnd x hx; cases hx
  | cons sec rest ih =>
    intro st rng hnd x hx
    rw [List.map_cons, List.nodup_cons] at hnd
    rw [foldSections_cons_results] at hx
    rcases List.mem_cons.1 hx with rfl | hx
    · have hsec := genSec_result_sec rooms sec st rng ev
      have hcnt : ∀ c, cntCourse
          (foldSections rooms ev rest
            (generateSectionTimetable rooms sec st rng ev).state
            (generateSectionTimetable rooms sec st rng ev).rng).1 sec.name c
          = cntCourse (generateSectionTimetable rooms sec st rng ev).state
              sec.name c := by
        intro c
        unfold cntCourse
        rw [foldSections_lookup rooms ev rest _ _ sec.name hnd.1]
      obtain ⟨hle, heq⟩ := genSec_hours rooms sec st rng ev
      constructor
      · intro c
        rw [foldSections_cons_state, hsec, hcnt]
        exact hle c
      · intro hs c
        rw [foldSections_cons_state, hsec, hcnt]
        exact heq hs c
    · rw [foldSections_cons_state]
      exact ih _ _ hnd.2 x hx

theorem generateTimetable_results (data : InitData) (rng : Rng) (ev : EvictFn) :
    (generateTimetable data rng ev).results
      = if data.sections = [] then []
        else (foldSections data.rooms ev data.sections SchedState.init rng).2.2.1 := by
  by_cases hs : data.sections = []
  · simp [generateTimetable, hs]
  · cases hg : (foldSections data.rooms ev data.sections SchedState.init rng).2.2.2.2 <;>
      simp [generateTimetable, hs, hg]

theorem generateTimetable_msgs_sup (data : InitData) (rng : Rng) (ev : EvictFn)
    (x : String) (hs : data.sections ≠ [])
    (hx : x ∈ (foldSections data.rooms ev data.sections SchedState.init rng).2.2.2.1) :
    x ∈ (generateTimetable data rng ev).messages := by
  cases hg : (foldSections data.rooms ev data.sections SchedState.init rng).2.2.2.2 <;>
    simp [generateTimetable, hs, hg, hx]

/-! ### Course assignments: faculty choice and multiplicities -/

theorem chooseFac_some (fm : List (String × String)) (code facs : String)
    (rng : Rng) (f : String) (h : lookupA fm code = some f) :
    chooseFac fm code facs rng = (f, fm, rng) := by
  simp [chooseFac, h]

theorem chooseFac_lookup (fm : List (String × String)) (code facs : String)
    (rng : Rng) :
    lookupA (chooseFac fm code facs rng).2.1 code
      = some (chooseFac fm code facs rng).1 := by
  cases hlf : lookupA fm code with
  | some f => simp [chooseFac, hlf]
  | none => simp [chooseFac, hlf, lookupA]

theorem chooseFac_lookup_mono (fm : List (String × String)) (code facs : String)
    (rng : Rng) (c f : String) (h : lookupA fm c = some f) :
    lookupA (chooseFac fm code facs rng).2.1 c = some f := by
  cases hlf : lookupA fm code with
  | some g => simp [chooseFac, hlf, h]
  | none =>
    by_cases hcc : code = c
    · subst hcc
      rw [hlf] at h
      cases h
    · simp [chooseFac, hlf, lookupA, hcc, h]

theorem ccaGo_cons_pos (b : String) (s : Nat) (row : CourseRow)
    (rest : List CourseRow) (fm : List (String × String)) (n : Nat) (rng : Rng)
    (hg : row.semester = s ∧ pyLower row.branch = b) :
    ccaGo b s (row :: rest) fm n rng
      = (List.replicate row.credits
            (⟨rowCourse b s row n,
              (chooseFac fm row.courseCode row.facultyMembers rng).1⟩ :
              CourseAssignment)
          ++ (ccaGo b s rest
              (chooseFac fm row.courseCode row.facultyMembers rng).2.1
              (n + row.credits)
              (chooseFac fm row.courseCode row.facultyMembers rng).2.2).1,
         (ccaGo b s rest
            (chooseFac fm row.courseCode row.facultyMembers rng).2.1
            (n + row.credits)
            (chooseFac fm row.courseCode row.facultyMembers rng).2.2).2) := by
  simp [ccaGo, hg, rowCourse]

theorem ccaGo_cons_neg (b : String) (s : Nat) (row : CourseRow)
    (rest : List CourseRow) (fm : List (String × String)) (n : Nat) (rng : Rng)
    (hg : ¬(row.semester = s ∧ pyLower row.branch = b)) :
    ccaGo b s (row :: rest) fm n rng = ccaGo b s rest fm n rng := by
  simp [ccaGo, hg]

theorem ccaGo_fac (b : String) (s : Nat) :
    ∀ (rows : List CourseRow) (fm : List (String × String)) (n : Nat)
      (rng : Rng),
    (∀ a ∈ (ccaGo b s rows fm n rng).1, ∀ f,
        lookupA fm a.course.code = some f → a.faculty = f) ∧
    (∀ a1 ∈ (ccaGo b s rows fm n rng).1, ∀ a2 ∈ (ccaGo b s rows fm n rng).1,
      a1.course.code = a2.course.code → a1.faculty = a2.faculty) := by
  intro rows
  induction rows with
  | nil =>
    intro fm n rng
    constructor
    · intro a ha
      cases ha
    · intro a1 h1
      cases h1
  | cons row rest ih =>
    intro fm n rng
    by_cases hg : row.semester = s ∧ pyLower row.branch = b
    · rw [ccaGo_cons_pos b s row rest fm n rng hg]
      obtain ⟨ih1, ih2⟩ := ih (chooseFac fm row.courseCode row.facultyMembers rng).2.1
        (n + row.credits) (chooseFac fm row.courseCode row.facultyMembers rng).2.2
      constructor
      · intro a ha f hf
        rcases List.mem_append.1 ha with ha | ha
        · have hae := List.eq_of_mem_replicate ha
          subst hae
          simp only [rowCourse] at hf
          simp [chooseFac_some fm row.courseCode row.facultyMembers rng f hf]
        · exact ih1 a ha f (chooseFac_lookup_mono fm row.courseCode
            row.facultyMembers rng a.course.code f hf)
      · intro a1 h1 a2 h2 hcode
        rcases List.mem_append.1 h1 with h1 | h1 <;>
          rcases List.mem_append.1 h2 with h2 | h2
        · rw [List.eq_of_mem_replicate h1, List.eq_of_mem_replicate h2]
        · have hae := List.eq_of_mem_replicate h1
          subst hae
          simp only [rowCourse] at hcode
          refine (ih1 a2 h2 (chooseFac fm row.courseCode row.facultyMembers rng).1
            ?_).symm
          rw [← hcode]
          exact chooseFac_lookup fm row.courseCode row.facultyMembers rng
        · have hae := List.eq_of_mem_replicate h2
          subst hae
          simp only [rowCourse] at hcode
          refine ih1 a1 h1 _ ?_
          rw [hcode]
          exact chooseFac_lookup fm row.courseCode row.facultyMembers rng
        · exact ih2 a1 h1 a2 h2 hcode
    · rw [ccaGo_cons_neg b s row rest fm n rng hg]
      exact ih fm n rng

theorem ccaGo_codes (b : String) (s : Nat) :
    ∀ (rows : List CourseRow) (fm : List (String × String)) (n : Nat)
      (rng : Rng) (a : CourseAssignment),
    a ∈ (ccaGo b s rows fm n rng).1 →
    a.course.code ∈ rows.map (fun r => r.courseCode) := by
  intro rows
  induction rows with
  | nil => intro fm n rng a ha; cases ha
  | cons row rest ih =>
    intro fm n rng a ha
    by_cases hg : row.semester = s ∧ pyLower row.branch = b
    · rw [ccaGo_cons_pos b s row rest fm n rng hg] at ha
      rcases List.mem_append.1 ha with ha | ha
      · have hae := List.eq_of_mem_replicate ha
        subst hae
        exact List.mem_cons_self _ _
      · exact List.mem_cons_of_mem _ (ih _ _ _ a ha)
    · rw [ccaGo_cons_neg b s row rest fm n rng hg] at ha
      exact List.mem_cons_of_mem _ (ih fm n rng a ha)

theorem ccaGo_mult (b : String) (s : Nat) :
    ∀ (rows : List CourseRow) (fm : List (String × String)) (n : Nat)
      (rng : Rng),
    (rows.map (fun r => r.courseCode)).Nodup →
    ∀ a ∈ (ccaGo b s rows fm n rng).1,
      multOf a.course (ccaGo b s rows fm n rng).1 = a.course.credits := by
  intro rows
  induction rows with
  | nil => intro fm n rng hnd a ha; cases ha
  | cons row rest ih =>
    intro fm n rng hnd a ha
    rw [List.map_cons, List.nodup_cons] at hnd
    by_cases hg : row.semester = s ∧ pyLower row.branch = b
    · rw [ccaGo_cons_pos b s row rest fm n rng hg] at ha ⊢
      unfold multOf
      rw [List.countP_append]
      rcases List.mem_append.1 ha with ha | ha
      · have hae := List.eq_of_mem_replicate ha
        subst hae
        rw [countP_replicate]
        rw [if_pos (by simp)]
        have hz : (List.countP (fun x => decide (x.course = rowCourse b s row n))
            (ccaGo b s rest
              (chooseFac fm row.courseCode row.facultyMembers rng).2.1
              (n + row.credits)
              (chooseFac fm row.courseCode row.facultyMembers rng).2.2).1) = 0 := by
          rw [List.countP_eq_zero]
          intro x hx
          rw [decide_eq_true_eq]
          intro hxc
          have hcode := ccaGo_codes b s rest _ _ _ x hx
          rw [hxc] at hcode
          exact hnd.1 hcode
        rw [hz]
        rfl
      · have hz : (List.countP (fun x => decide (x.course = a.course))
            (List.replicate row.credits
              (⟨rowCourse b s row n,
                (chooseFac fm row.courseCode row.facultyMembers rng).1⟩ :
                CourseAssignment))) = 0 := by
          rw [countP_replicate]
          rw [if_neg]
          rw [decide_eq_true_eq]
          intro hxc
          have hcode := ccaGo_codes b s rest _ _ _ a ha
          rw [← hxc] at hcode
          exact hnd.1 hcode
        rw [hz, Nat.zero_add]
        exact ih _ _ _ hnd.2 a ha
    · rw [ccaGo_cons_neg b s row rest fm n rng hg] at ha ⊢
      exact ih fm n rng hnd.2 a ha

theorem mkSections_mem (courses : List CourseRow) (b : String) (s : Nat)
    (per : Nat) :
    ∀ (k i : Nat) (rng : Rng) (sec : Section),
    sec ∈ (mkSections courses b s per k i rng).1 →
    ∃ r, sec.course_assignments = (createCourseAssignments courses b s r).1 := by
  intro k
  induction k with
  | zero => intro i rng sec h; cases h
  | succ k ih =>
    intro i rng sec h
    unfold mkSections at h
    rcases List.mem_cons.1 h with rfl | h
    · exact ⟨rng, rfl⟩
    · exact ih (i + 1) _ sec h

theorem buildSectionsFor_mem {input : GenInput} {rng : Rng} {b : String}
    {s : Nat} {secs : List Section} {rng2 : Rng}
    (h : buildSectionsFor input rng b s = .ok (secs, rng2)) (sec : Section)
    (hs : sec ∈ secs) :
    ∃ r, sec.course_assignments = (createCourseAssignments input.courses b s r).1 := by
  unfold buildSectionsFor at h
  cases hr : input.rooms with
  | nil =>
    rw [hr] at h
    cases h
  | cons r0 rs =>
    rw [hr] at h
    simp only [Except.ok.injEq] at h
    obtain ⟨h1, -⟩ := Prod.mk.injEq .. ▸ h
    have hsecs : secs = (mkSections input.courses b s
        (if maxCapOf r0 rs < input.studentCounts b ((s + 1) / 2) then
          ceilDiv (input.studentCounts b ((s + 1) / 2))
            (ceilDiv (input.studentCounts b ((s + 1) / 2)) (minCapOf r0 rs))
         else input.studentCounts b ((s + 1) / 2))
        (if maxCapOf r0 rs < input.studentCounts b ((s + 1) / 2) then
          ceilDiv (input.studentCounts b ((s + 1) / 2)) (minCapOf r0 rs)
         else 1) 0 rng).1 := by
      by_cases hneed : maxCapOf r0 rs < input.studentCounts b ((s + 1) / 2) <;>
        simp only [hneed, if_true, if_false, reduceIte] at h ⊢ <;>
        exact (congrArg Prod.fst h.symm)
    rw [hsecs] at hs
    exact mkSections_mem input.courses b s _ _ 0 rng sec hs

theorem initGo_mem (input : GenInput) :
    ∀ (ps : List (String × Nat)) (rng : Rng) (secs : List Section) (rng2 : Rng),
    initGo input ps rng = .ok (secs, rng2) → ∀ sec ∈ secs,
    ∃ b s r, sec.course_assignments
      = (createCourseAssignments input.courses b s r).1 := by
  intro ps
  induction ps with
  | nil =>
    intro rng secs rng2 h sec hs
    unfold initGo at h
    cases h
    cases hs
  | cons p rest ih =>
    intro rng secs rng2 h sec hs
    rcases p with ⟨b, s⟩
    cases hb : buildSectionsFor input rng b s with
    | error e =>
      rw [show initGo input ((b, s) :: rest) rng = .error e from by
        simp [initGo, hb]] at h
      cases h
    | ok o =>
      cases hr : initGo input rest o.2 with
      | error e =>
        rw [show initGo input ((b, s) :: rest) rng = .error e from by
          simp [initGo, hb, hr]] at h
        cases h
      | ok o2 =>
        rw [show initGo input ((b, s) :: rest) rng = .ok (o.1 ++ o2.1, o2.2) from by
          simp [initGo, hb, hr]] at h
        simp only [Except.ok.injEq, Prod.mk.injEq] at h
        obtain ⟨h1, h2⟩ := h
        subst h1
        rcases List.mem_append.1 hs with hs | hs
        · exact ⟨b, s, buildSectionsFor_mem (by rw [hb]) sec hs⟩
        · exact ih o.2 o2.1 o2.2 (by rw [hr]) sec hs

theorem initializeData_mem {input : GenInput} {rng : Rng} {d : InitData}
    {rng2 : Rng} (h : initializeData input rng = .ok (d, rng2)) :
    ∀ sec ∈ d.sections,
    ∃ b s r, sec.course_assignments
      = (createCourseAssignments input.courses b s r).1 := by
  intro sec hs
  cases hg : initGo input (pairsFor input.semesterType) rng with
  | error e =>
    rw [show initializeData input rng = .error e from by
      simp [initializeData, hg]] at h
    cases h
  | ok o =>
    rw [show initializeData input rng
        = .ok ({ rooms := input.rooms, sections := o.1 }, o.2) from by
      simp [initializeData, hg]] at h
    simp only [Except.ok.injEq, Prod.mk.injEq] at h
    obtain ⟨h1, h2⟩ := h
    subst h1
    exact initGo_mem input _ rng o.1 o.2 (by rw [hg]) sec hs

/-- For sections built by `_initialize_data` on inputs whose course codes are
unique, each course occurs in the assignment list exactly `credits` times. -/
theorem section_mult_credits {input : GenInput} {rng : Rng} {d : InitData}
    {rng2 : Rng} (h : initializeData input rng = .ok (d, rng2))
    (hnd : (input.courses.map (fun r => r.courseCode)).Nodup) :
    ∀ sec ∈ d.sections, ∀ a ∈ sec.course_assignments,
    multOf a.course sec.course_assignments = a.course.credits := by
  intro sec hs a ha
  obtain ⟨b, s, r, heq⟩ := initializeData_mem h sec hs
  rw [heq] at ha ⊢
  exact ccaGo_mult b s input.courses [] 0 r hnd a ha

/-! ### Claims C2, C8, C10 -/

/-- C8: within one section, every `CourseAssignment` generated by
`_create_course_assignments` for the same course (same course code) carries
the same single faculty name — the faculty member is chosen once per course
and reused for every credit-hour. -/
theorem c8_one_faculty_per_course (courses : List CourseRow) (branch : String)
    (semester : Nat) (rng : Rng) :
    ∀ a1 ∈ (createCourseAssignments courses branch semester rng).1,
    ∀ a2 ∈ (createCourseAssignments courses branch semester rng).1,
    a1.course.code = a2.course.code → a1.faculty = a2.faculty :=
  (ccaGo_fac branch semester courses [] 0 rng).2

/-- Witness for C8: the `iSucc` input lists two faculty candidates; all
three credit-hour assignments of its single course share one faculty. -/
theorem c8_witness :
    ((createCourseAssignments iSucc.courses "cse" 2 rng0).1.headD
        ⟨⟨"", "", 0, 0, "", ""⟩, ""⟩)
      ∈ (createCourseAssignments iSucc.courses "cse" 2 rng0).1 ∧
    ∀ a2 ∈ (createCourseAssignments iSucc.courses "cse" 2 rng0).1,
      ((createCourseAssignments iSucc.courses "cse" 2 rng0).1.headD
        ⟨⟨"", "", 0, 0, "", ""⟩, ""⟩).course.code = a2.course.code →
      ((createCourseAssignments iSucc.courses "cse" 2 rng0).1.headD
        ⟨⟨"", "", 0, 0, "", ""⟩, ""⟩).faculty = a2.faculty := by
  constructor
  · decide
  · exact c8_one_faculty_per_course iSucc.courses "cse" 2 rng0 _ (by decide)

/-- C2: for every section whose scheduling run succeeds, and for every
course of that section, the number of `ScheduledSlot` placed for that
(section, course) pair in the final timetable equals the course's
credit-hours.  The hypotheses ask for unique course codes in the input (the
spec requires course codes to be unique) and pairwise-distinct section names
(true of the generated `S<semester><BRANCH><letter>` names). -/
theorem c2_hour_conservation (input : GenInput) (rng : Rng) (ev : EvictFn)
    (res : RunResult) (hok : run input rng ev = .ok res)
    (hnd : (input.courses.map (fun r => r.courseCode)).Nodup)
    (hnames : ((res.results.map (fun x => x.sec)).map (fun s => s.name)).Nodup) :
    ∀ x ∈ res.results, x.success = true →
    ∀ a ∈ x.sec.course_assignments,
      cntCourse res.state x.sec.name a.course = a.course.credits := by
  intro x hx hsucc a ha
  unfold run at hok
  cases hin : initializeData input rng with
  | error e =>
    rw [hin] at hok
    cases hok
  | ok r =>
    rw [hin] at hok
    cases hok
    rw [generateTimetable_results] at hx
    by_cases hs : r.1.sections = []
    · rw [if_pos hs] at hx
      cases hx
    · rw [if_neg hs] at hx
      have hmapsec : ((foldSections r.1.rooms ev r.1.sections SchedState.init
          r.2).2.2.1).map (fun y => y.sec) = r.1.sections :=
        foldSections_secs r.1.rooms ev r.1.sections SchedState.init r.2
      have hnames2 : (r.1.sections.map (fun s => s.name)).Nodup := by
        rw [← hmapsec]
        have : (generateTimetable r.1 r.2 ev).results
            = (foldSections r.1.rooms ev r.1.sections SchedState.init r.2).2.2.1 := by
          rw [generateTimetable_results, if_neg hs]
        rw [← this]
        exact hnames
      have hcounts := foldSections_counts r.1.rooms ev r.1.sections
        SchedState.init r.2 hnames2 x hx
      have hstate : (generateTimetable r.1 r.2 ev).state
          = (foldSections r.1.rooms ev r.1.sections SchedState.init r.2).1 := by
        rw [generateTimetable_state, if_neg hs]
      rw [hstate]
      rw [hcounts.2 hsucc a.course]
      have hxsec : x.sec ∈ r.1.sections := by
        rw [← hmapsec]
        exact List.mem_map_of_mem _ hx
      exact section_mult_credits hin hnd x.sec hxsec a ha

/-- C10: the per-course placement count never exceeds the course's
credit-hours — at every point (the bookkeeping invariant `HourInv`, with its
skip guard and its one decrement per committed placement, is preserved by
every call of `_attempt_schedule_courses`) and in the final state of every
run, including for sections that end as scheduling failures. -/
theorem c10_never_exceeds_credits :
    (∀ (rooms : List Room) (sec : Section) (st : SchedState)
        (rem : Course → Int) (hist : HistFn) (rng : Rng) (ev : EvictFn),
      HourInv sec st rem →
      HourInv sec (attemptScheduleCourses rooms sec st rem hist rng ev).1
        (attemptScheduleCourses rooms sec st rem hist rng ev).2.1) ∧
    (∀ (input : GenInput) (rng : Rng) (ev : EvictFn) (res : RunResult),
      run input rng ev = .ok res →
      (input.courses.map (fun r => r.courseCode)).Nodup →
      ((res.results.map (fun x => x.sec)).map (fun s => s.name)).Nodup →
      ∀ x ∈ res.results, ∀ a ∈ x.sec.course_assignments,
        cntCourse res.state x.sec.name a.course ≤ a.course.credits) := by
  constructor
  · intro rooms sec st rem hist rng ev h
    exact attemptGo_hourInv rooms sec ev _ st rem hist h
  · intro input rng ev res hok hnd hnames x hx a ha
    unfold run at hok
    cases hin : initializeData input rng with
    | error e =>
      rw [hin] at hok
      cases hok
    | ok r =>
      rw [hin] at hok
      cases hok
      rw [generateTimetable_results] at hx
      by_cases hs : r.1.sections = []
      · rw [if_pos hs] at hx
        cases hx
      · rw [if_neg hs] at hx
        have hmapsec : ((foldSections r.1.rooms ev r.1.sections SchedState.init
            r.2).2.2.1).map (fun y => y.sec) = r.1.sections :=
          foldSections_secs r.1.rooms ev r.1.sections SchedState.init r.2
        have hnames2 : (r.1.sections.map (fun s => s.name)).Nodup := by
          rw [← hmapsec]
          have : (generateTimetable r.1 r.2 ev).results
              = (foldSections r.1.rooms ev r.1.sections SchedState.init r.2).2.2.1 := by
            rw [generateTimetable_results, if_neg hs]
          rw [← this]
          exact hnames
        have hcounts := foldSections_counts r.1.rooms ev r.1.sections
          SchedState.init r.2 hnames2 x hx
        have hstate : (generateTimetable r.1 r.2 ev).state
            = (foldSections r.1.rooms ev r.1.sections SchedState.init r.2).1 := by
          rw [generateTimetable_state, if_neg hs]
        rw [hstate]
        have hxsec : x.sec ∈ r.1.sections := by
          rw [← hmapsec]
          exact List.mem_map_of_mem _ hx
        have := hcounts.1 a.course
        rw [section_mult_credits hin hnd x.sec hxsec a ha] at this
        exact this

/-- Witness for C2 at `iSucc`: the cse semester-2 section succeeds and its
3-credit course occupies exactly 3 slots. -/
theorem c2_witness :
    cntCourse (runResOf iSucc rng0 ev0).state c2secres.sec.name c2assign.course
      = c2assign.course.credits :=
  c2_hour_conservation iSucc rng0 ev0 (runResOf iSucc rng0 ev0)
    (run_ok iSucc rng0 ev0 (by simp [iSucc])) (by decide) (by decide)
    c2secres (by decide) (by decide) c2assign (by decide)

/-- Witness for C10 at `iSucc`. -/
theorem c10_witness :
    cntCourse (runResOf iSucc rng0 ev0).state c10secres.sec.name
        c10assign.course
      ≤ c10assign.course.credits :=
  c10_never_exceeds_credits.2 iSucc rng0 ev0 (runResOf iSucc rng0 ev0)
    (run_ok iSucc rng0 ev0 (by simp [iSucc])) (by decide) (by decide)
    c10secres (by decide) c10assign (by decide)

/-! ### Claim C5: failures are isolated and reported as data -/

/-- C5: when sections fail (including deficits after the attempt cap), the
remaining sections are still processed — the run yields one result per
section of `_initialize_data`, in order — the run completes as a value
(never an exception once initialisation succeeded), every section (failing
or not) retains its entry in the timetable dict, and the diagnostics appear
in the returned message log. -/
theorem c5_failures_isolated (input : GenInput) (rng : Rng) (ev : EvictFn)
    (res : RunResult) (hok : run input rng ev = .ok res) :
    (∀ d rng1, initializeData input rng = .ok (d, rng1) →
      res.results.map (fun x => x.sec) = d.sections) ∧
    (∀ x ∈ res.results, x.success = false →
      ("Failed to generate complete timetable for section " ++ x.sec.name)
        ∈ res.messages) ∧
    (∀ x ∈ res.results, x.deficits ≠ [] →
      ("Could not schedule all courses for section " ++ x.sec.name ++
          " after 100 attempts") ∈ res.messages) ∧
    (∀ x ∈ res.results, x.sec.name ∈ res.state.timetable.map Prod.fst) := by
  unfold run at hok
  cases hin : initializeData input rng with
  | error e =>
    rw [hin] at hok
    cases hok
  | ok r =>
    rw [hin] at hok
    cases hok
    refine ⟨?_, ?_, ?_, ?_⟩
    · intro d rng1 hd
      have h2 : Except.ok (ε := String) r = .ok (d, rng1) := hin ▸ hd
      simp only [Except.ok.injEq] at h2
      subst h2
      rw [generateTimetable_results]
      by_cases hs : d.sections = []
      · rw [if_pos hs, hs]
        rfl
      · rw [if_neg hs]
        exact foldSections_secs _ ev _ SchedState.init rng1
    · intro x hx hf
      rw [generateTimetable_results] at hx
      by_cases hs : r.1.sections = []
      · rw [if_pos hs] at hx
        cases hx
      · rw [if_neg hs] at hx
        exact generateTimetable_msgs_sup r.1 r.2 ev _ hs
          (foldSections_fail_msg r.1.rooms ev _ _ _ x hx hf)
    · intro x hx hdef
      rw [generateTimetable_results] at hx
      by_cases hs : r.1.sections = []
      · rw [if_pos hs] at hx
        cases hx
      · rw [if_neg hs] at hx
        exact generateTimetable_msgs_sup r.1 r.2 ev _ hs
          (foldSections_deficit_msg r.1.rooms ev _ _ _ x hx hdef)
    · intro x hx
      rw [generateTimetable_results] at hx
      by_cases hs : r.1.sections = []
      · rw [if_pos hs] at hx
        cases hx
      · rw [if_neg hs] at hx
        rw [generateTimetable_state, if_neg hs]
        exact foldSections_result_keys r.1.rooms ev _ _ _ x hx

/-- Witness for C5 at `iSucc` (a run in which eleven of the twelve sections
fail while the first succeeds). -/
theorem c5_witness :
    (∀ d rng1, initializeData iSucc rng0 = .ok (d, rng1) →
      (runResOf iSucc rng0 ev0).results.map (fun x => x.sec) = d.sections) ∧
    (∀ x ∈ (runResOf iSucc rng0 ev0).results, x.success = false →
      ("Failed to generate complete timetable for section " ++ x.sec.name)
        ∈ (runResOf iSucc rng0 ev0).messages) ∧
    (∀ x ∈ (runResOf iSucc rng0 ev0).results, x.deficits ≠ [] →
      ("Could not schedule all courses for section " ++ x.sec.name ++
          " after 100 attempts") ∈ (runResOf iSucc rng0 ev0).messages) ∧
    (∀ x ∈ (runResOf iSucc rng0 ev0).results,
      x.sec.name ∈ (runResOf iSucc rng0 ev0).state.timetable.map Prod.fst) :=
  c5_failures_isolated iSucc rng0 ev0 (runResOf iSucc rng0 ev0)
    (run_ok iSucc rng0 ev0 (by simp [iSucc]))

/-! ### Claim C6: empty room list -/

theorem buildSectionsFor_no_rooms (input : GenInput) (rng : Rng) (b : String)
    (s : Nat) (h : input.rooms = []) :
    buildSectionsFor input rng b s
      = .error "ValueError: max() arg is an empty sequence" := by
  unfold buildSectionsFor
  rw [h]

theorem initGo_no_rooms (input : GenInput) (h : input.rooms = [])
    (p : String × Nat) (ps : List (String × Nat)) (rng : Rng) :
    initGo input (p :: ps) rng
      = .error "ValueError: max() arg is an empty sequence" := by
  rcases p with ⟨b, s⟩
  simp [initGo, buildSectionsFor_no_rooms input rng b s h]

theorem pairsFor_ne_nil (semType : String) :
    ∃ p ps, pairsFor semType = p :: ps := by
  by_cases he : pyLower semType = "even" <;>
    simp [pairsFor, targetBranches, targetSemesters, catMap, he]

/-- C6: on an input with no rooms, the generator is not rejected with a
configuration error before section building; instead the capacity lookup
`max(room.capacity for room in self.rooms)` is attempted inside the
section-building loop of `_initialize_data` and raises `ValueError`, so the
whole pipeline ends with that exception. -/
theorem c6_no_rooms_value_error (input : GenInput) (rng : Rng) (ev : EvictFn)
    (h : input.rooms = []) :
    run input rng ev = .error "ValueError: max() arg is an empty sequence" := by
  obtain ⟨p, ps, hp⟩ := pairsFor_ne_nil input.semesterType
  have hig : initGo input (pairsFor input.semesterType) rng
      = .error "ValueError: max() arg is an empty sequence" := by
    rw [hp]
    exact initGo_no_rooms input h p ps rng
  simp [run, initializeData, hig]

/-- Witness for C6 at the concrete no-rooms input. -/
theorem c6_witness :
    run iNoRooms rng0 ev0
      = .error "ValueError: max() arg is an empty sequence" :=
  c6_no_rooms_value_error iNoRooms rng0 ev0 rfl

/-! ### Claim C7: the section builder's counts, sizes and names -/

theorem mkSections_length (courses : List CourseRow) (b : String) (s : Nat)
    (per : Nat) : ∀ (k i : Nat) (rng : Rng),
    (mkSections courses b s per k i rng).1.length = k := by
  intro k
  induction k with
  | zero => intro i rng; rfl
  | succ k ih =>
    intro i rng
    unfold mkSections
    simp [ih]

theorem mkSections_getD (courses : List CourseRow) (b : String) (s : Nat)
    (per : Nat) : ∀ (k i : Nat) (rng : Rng) (j : Nat), j < k →
    ((mkSections courses b s per k i rng).1.getD j ⟨"", 0, "", 0, []⟩).name
        = sectionName s b (i + j) ∧
    ((mkSections courses b s per k i rng).1.getD j
        ⟨"", 0, "", 0, []⟩).student_count = per := by
  intro k
  induction k with
  | zero => intro i rng j h; omega
  | succ k ih =>
    intro i rng j h
    cases j with
    | zero => exact ⟨rfl, rfl⟩
    | succ j =>
      have h2 : j < k := by omega
      have hx := ih (i + 1) (createCourseAssignments courses b s rng).2 j h2
      constructor
      · show ((mkSections courses b s per k (i + 1)
            (createCourseAssignments courses b s rng).2).1.getD j
            ⟨"", 0, "", 0, []⟩).name = _
        rw [hx.1]
        congr 1
        omega
      · exact hx.2

theorem ceilDiv_one (n : Nat) : ceilDiv n 1 = n := by
  unfold ceilDiv
  omega

/-- C7: for every (branch, target-semester) pair, the Section Builder
creates exactly 1 section when the student count fits in the largest room's
capacity and otherwise `ceil(count / smallest-room-capacity)` sections, each
holding `ceil(count / number-of-sections)` students, with names
`S<semester><BRANCH><letter>` where the letter (`chr(65 + i)`) indexes the
split. -/
theorem c7_section_builder (input : GenInput) (rng : Rng) (b : String)
    (s : Nat) (r0 : Room) (rest : List Room) (hr : input.rooms = r0 :: rest) :
    ∃ secs rng2, buildSectionsFor input rng b s = .ok (secs, rng2) ∧
      secs.length = claimNumSections (input.studentCounts b ((s + 1) / 2))
        (maxCapOf r0 rest) (minCapOf r0 rest) ∧
      ∀ i < secs.length,
        (secs.getD i ⟨"", 0, "", 0, []⟩).name = claimSectionName s b i ∧
        (secs.getD i ⟨"", 0, "", 0, []⟩).student_count
          = claimStudentsPerSection (input.studentCounts b ((s + 1) / 2))
              (claimNumSections (input.studentCounts b ((s + 1) / 2))
                (maxCapOf r0 rest) (minCapOf r0 rest)) := by
  by_cases hneed : maxCapOf r0 rest < input.studentCounts b ((s + 1) / 2)
  · refine ⟨(mkSections input.courses b s
        (ceilDiv (input.studentCounts b ((s + 1) / 2))
          (ceilDiv (input.studentCounts b ((s + 1) / 2)) (minCapOf r0 rest)))
        (ceilDiv (input.studentCounts b ((s + 1) / 2)) (minCapOf r0 rest))
        0 rng).1,
      (mkSections input.courses b s
        (ceilDiv (input.studentCounts b ((s + 1) / 2))
          (ceilDiv (input.studentCounts b ((s + 1) / 2)) (minCapOf r0 rest)))
        (ceilDiv (input.studentCounts b ((s + 1) / 2)) (minCapOf r0 rest))
        0 rng).2, ?_, ?_, ?_⟩
    · unfold buildSectionsFor
      rw [hr]
      simp [hneed]
    · rw [mkSections_length]
      unfold claimNumSections
      rw [if_neg (by omega)]
    · intro i hi
      rw [mkSections_length] at hi
      have hg := mkSections_getD input.courses b s
        (ceilDiv (input.studentCounts b ((s + 1) / 2))
          (ceilDiv (input.studentCounts b ((s + 1) / 2)) (minCapOf r0 rest)))
        (ceilDiv (input.studentCounts b ((s + 1) / 2)) (minCapOf r0 rest))
        0 rng i hi
      refine ⟨?_, ?_⟩
      · rw [hg.1]
        show sectionName s b (0 + i) = claimSectionName s b i
        rw [Nat.zero_add]
        rfl
      · rw [hg.2]
        unfold claimStudentsPerSection claimNumSections
        rw [if_neg (by omega)]
  · refine ⟨(mkSections input.courses b s
        (input.studentCounts b ((s + 1) / 2)) 1 0 rng).1,
      (mkSections input.courses b s
        (input.studentCounts b ((s + 1) / 2)) 1 0 rng).2, ?_, ?_, ?_⟩
    · unfold buildSectionsFor
      rw [hr]
      simp [hneed]
    · rw [mkSections_length]
      unfold claimNumSections
      rw [if_pos (by omega)]
    · intro i hi
      rw [mkSections_length] at hi
      have hg := mkSections_getD input.courses b s
        (input.studentCounts b ((s + 1) / 2)) 1 0 rng i hi
      refine ⟨?_, ?_⟩
      · rw [hg.1]
        show sectionName s b (0 + i) = claimSectionName s b i
        rw [Nat.zero_add]
        rfl
      · rw [hg.2]
        unfold claimStudentsPerSection claimNumSections
        rw [if_pos (by omega), ceilDiv_one]

/-- Witness for C7 at `iSplit`: 100 cse students against rooms of capacity
40 and 60 split into 3 sections of 34. -/
theorem c7_witness :
    ∃ secs rng2, buildSectionsFor iSplit rng0 "cse" 2 = .ok (secs, rng2) ∧
      secs.length = claimNumSections (iSplit.studentCounts "cse" ((2 + 1) / 2))
        (maxCapOf ⟨"A", 40⟩ [⟨"B", 60⟩]) (minCapOf ⟨"A", 40⟩ [⟨"B", 60⟩]) ∧
      ∀ i < secs.length,
        (secs.getD i ⟨"", 0, "", 0, []⟩).name = claimSectionName 2 "cse" i ∧
        (secs.getD i ⟨"", 0, "", 0, []⟩).student_count
          = claimStudentsPerSection (iSplit.studentCounts "cse" ((2 + 1) / 2))
              (claimNumSections (iSplit.studentCounts "cse" ((2 + 1) / 2))
                (maxCapOf ⟨"A", 40⟩ [⟨"B", 60⟩])
                (minCapOf ⟨"A", 40⟩ [⟨"B", 60⟩])) :=
  c7_section_builder iSplit rng0 "cse" 2 ⟨"A", 40⟩ [⟨"B", 60⟩] rfl

/-! ### Claim C9: reproducibility -/

/-- C9 (amended): with fixed inputs, two runs produce identical schedules
provided both the random stream (the seedable part) and the set-eviction
choices of the room-history cap (which `random.seed` does not control)
coincide. -/
theorem c9_seed_and_eviction_reproducible (input : GenInput) (r1 r2 : Rng)
    (e1 e2 : EvictFn) (hr : r1 = r2) (he : e1 = e2) :
    run input r1 e1 = run input r2 e2 := by
  rw [hr, he]

/-- Witness for the amended C9. -/
theorem c9_witness : run i9 rng0 ev0 = run i9 rng0 ev0 :=
  c9_seed_and_eviction_reproducible i9 rng0 rng0 ev0 ev0 rfl rfl

/-- Counterexample to C9 as stated: same input `i9`, same random stream
`rng0`, but two different victims for the `set.pop()` eviction in
`_update_room_history` yield different schedules for section S2CSEA (the
fifth session of the 5-credit course lands in room R1 under one eviction
choice and in room R2 under the other).  The eviction victim depends on
CPython's hash-randomised set layout, not on `random.seed`, so a fixed seed
does not make two runs identical. -/
theorem c9_counterexample :
    lookupTT (runStateOf i9 rng0 ev0).timetable "S2CSEA"
      ≠ lookupTT (runStateOf i9 rng0 ev1).timetable "S2CSEA" := by
  decide

end TTG
